import Mathlib

/-! gopubip: the source catalog, its filter, and the fetch fallback

A shallow embedding of `pubip.go`.

* Go `int` bitmask values (`Protocol`, `FamilyReply`, `SourceID`) are represented by the
  natural number of their two's complement bit pattern.  The program only combines them with
  `&` and compares them with constants, and both operations act on the bit pattern.
* A Go `map[SourceID]Source` is an association list.  A list stands for a Go map when its
  keys are pairwise distinct (`KeysNodup`); the position of an entry in the list carries no
  meaning.
* The network and the Go standard library are a parameter (`Net`) of every function that
  reaches them; each network call is appended to a call trace that is threaded through.
* `uint` is 64 bits wide.  The loop of `getStringFromBitmaskMap` does not end on every
  input, so it takes fuel and returns `none` when the fuel runs out.  Everything that runs
  it takes the same fuel: the `String` methods, the log call of `getValidSources`, which
  prints the kept descriptor, with it `getValidSources`, `Get` and `Update`, and the
  provider-name loop of the command.  The theorems state how much fuel is enough, and on
  which inputs none is.
* Text is a list of Unicode code points.  `strings.ToUpper` acts code point by code point;
  its values are spelled out on ASCII and on the two code points outside ASCII whose upper
  case is an ASCII letter, and are a parameter elsewhere.
-/

set_option autoImplicit false

namespace Pubip

/-! ## Bitmask types (pubip.go:38-83) -/

abbrev Protocol := Nat

def HTTP : Protocol := 1
def HTTPS : Protocol := 2
def DNS : Protocol := 4
def DNS_TXT : Protocol := 8

abbrev FamilyReply := Nat

def IPv4 : FamilyReply := 1
def IPv6 : FamilyReply := 2

abbrev SourceID := Nat

def ICANHAZIP : SourceID := 1
def IFCONFIGME : SourceID := 2
def IPIFY : SourceID := 4
def OPENDNS : SourceID := 8
def GOOGLEDNSTXT : SourceID := 16

/-! ## Filter and source descriptor (pubip.go:97-115) -/

/-- The struct `SourceFilter`; a zero field places no constraint on its axis. -/
structure SourceFilter where
  ID : SourceID := 0
  Proto : Protocol := 0
  Replies : FamilyReply := 0
deriving DecidableEq

/-- The function `NewSourceFilter`: a fresh filter with every field zero. -/
def NewSourceFilter : SourceFilter := {}

/-- The struct `Source`; fields left out of a Go composite literal are zero. -/
structure Source where
  ID : SourceID := 0
  Address : String := ""
  AddressIPv6 : String := ""
  AddressIPv4 : String := ""
  Server : String := ""
  Protocols : Protocol := 0
  Replies : FamilyReply := 0
deriving DecidableEq

/-! ## Go maps as association lists -/

abbrev SourceMap := List (SourceID × Source)

/-- Map indexing with the comma-ok form, `v, ok := m[k]`. -/
def mapGet : SourceMap → SourceID → Option Source
  | [], _ => none
  | (k', v) :: rest, k => if k' = k then some v else mapGet rest k

/-- Map assignment `m[k] = v`: overwrite the entry of `k` when present, add one otherwise. -/
def mapSet : SourceMap → SourceID → Source → SourceMap
  | [], k, v => [(k, v)]
  | (k', v') :: rest, k, v => if k' = k then (k, v) :: rest else (k', v') :: mapSet rest k v

/-- The keys of a map. -/
def mapKeys (m : SourceMap) : List SourceID := m.map Prod.fst

/-- A list stands for a Go map when no key occurs twice. -/
def KeysNodup (m : SourceMap) : Prop := (mapKeys m).Nodup

instance (m : SourceMap) : Decidable (KeysNodup m) := by
  unfold KeysNodup; infer_instance

/-- Bitwise inclusion: every bit set in `a` is set in `b`. -/
def BitSubset (a b : Nat) : Prop := a &&& b = a

instance (a b : Nat) : Decidable (BitSubset a b) := by
  unfold BitSubset; infer_instance

/-! ## Rendering of bitmasks (pubip.go:20-95) -/

/-- The shift `1 << i` on the 64-bit type `uint`: a shift count of 64 or more gives 0. -/
def shl1 (i : Nat) : Nat := if i < 64 then 2 ^ i else 0

/-- The call `strconv.FormatUint(x, 10)`: the decimal numeral of `x`. -/
def FormatUint (x : Nat) : String := Nat.repr x

/-- A Go `map[uint]string` literal as an association list. -/
abbrev NameTable := List (Nat × String)

/-- The body of the loop of `getStringFromBitmaskMap` followed by its `i++`, acting on the
loop state `(i, pstr)`; `i` is a `uint` and wraps at `2 ^ 64`. -/
def bitmaskBody (m : NameTable) (p : Nat) (st : Nat × String) : Nat × String :=
  let i := st.1
  let pstr := st.2
  let pstr :=
    if p &&& shl1 i ≠ 0 then
      let pstr := if pstr ≠ "" then pstr ++ "|" else pstr
      match m.lookup (shl1 i) with
      | some s => pstr ++ s
      | none => pstr ++ FormatUint (shl1 i)
    else pstr
  ((i + 1) % 2 ^ 64, pstr)

/-- The loop `for i := uint(0); (1 << i) <= uint(p); i++` from a given state.  Every test
of the loop condition uses one unit of `fuel`; `none` means the fuel ran out. -/
def bitmaskLoop (m : NameTable) (p : Nat) : Nat → Nat × String → Option String
  | 0, _ => none
  | fuel + 1, st =>
    if shl1 st.1 ≤ p then bitmaskLoop m p fuel (bitmaskBody m p st)
    else some st.2

/-- The function `getStringFromBitmaskMap`; `p` is the bit pattern of the `uint` argument. -/
def getStringFromBitmaskMap (fuel : Nat) (m : NameTable) (p : Nat) : Option String :=
  bitmaskLoop m p fuel (0, "")

/-- The name table of `Protocol.String`. -/
def protocolNames : NameTable :=
  [(HTTP, "HTTP"), (HTTPS, "HTTPS"), (DNS, "DNS"), (DNS_TXT, "DNS (TXT)")]

/-- The method `Protocol.String`. -/
def Protocol.String (fuel : Nat) (p : Protocol) : Option String :=
  getStringFromBitmaskMap fuel protocolNames p

/-- The name table of `FamilyReply.String`. -/
def familyNames : NameTable := [(IPv4, "IPv4"), (IPv6, "IPv6")]

/-- The method `FamilyReply.String`. -/
def FamilyReply.String (fuel : Nat) (fr : FamilyReply) : Option String :=
  getStringFromBitmaskMap fuel familyNames fr

/-- The name table of `SourceID.String`. -/
def sourceIDNames : NameTable :=
  [(ICANHAZIP, "ICANHAZIP"), (IFCONFIGME, "IFCONFIGME"), (IPIFY, "IPIFY"),
   (OPENDNS, "OPENDNS"), (GOOGLEDNSTXT, "GOOGLEDNSTXT")]

/-- The method `SourceID.String`. -/
def SourceID.String (fuel : Nat) (sid : SourceID) : Option String :=
  getStringFromBitmaskMap fuel sourceIDNames sid

/-- The item of bit `i`: the name the table has for the value `2 ^ i` of that bit, or the
decimal numeral of that value. -/
def bitmaskItem (m : NameTable) (i : Nat) : String :=
  match m.lookup (2 ^ i) with
  | some s => s
  | none => Nat.repr (2 ^ i)

/-- The items of the set bits of `p` below bit `k`, in ascending bit order. -/
def bitmaskItemsBelow (m : NameTable) (p k : Nat) : List String :=
  ((List.range k).filter (fun i => p.testBit i)).map (bitmaskItem m)

/-- The items the rendering is made of: one per set bit of the 64-bit value `p`, in
ascending bit order. -/
def bitmaskItems (m : NameTable) (p : Nat) : List String :=
  bitmaskItemsBelow m p 64

/-! ## The filter engine (pubip.go:196-242) -/

/-- The body of the loop of `getValidSources` (pubip.go:204-233) for one catalog value `v`:
`none` when one of the three `continue` statements is taken, otherwise the new
descriptor `s` that the loop stores. -/
def narrowEntry (sf : SourceFilter) (v : Source) : Option Source :=
  if sf.Proto ≠ 0 ∧ v.Protocols &&& sf.Proto = 0 then none
  else if sf.Replies ≠ 0 ∧ v.Replies &&& sf.Replies = 0 then none
  else if sf.ID ≠ 0 ∧ v.ID &&& sf.ID = 0 then none
  else
    let s : Source := { ID := v.ID, Address := v.Address }
    let s : Source := { s with Server := v.Server }
    let s : Source :=
      if sf.Proto ≠ 0 then { s with Protocols := v.Protocols &&& sf.Proto }
      else { s with Protocols := v.Protocols }
    let s : Source :=
      if sf.Replies ≠ 0 then
        let s : Source := { s with Replies := v.Replies &&& sf.Replies }
        if s.Replies = IPv4 ∧ v.AddressIPv4 ≠ "" then { s with Address := v.AddressIPv4 }
        else if s.Replies = IPv6 ∧ v.AddressIPv6 ≠ "" then { s with Address := v.AddressIPv6 }
        else s
      else { s with Replies := v.Replies }
    some s

/-- The call `log.Println("Adding valid source:", s)` (pubip.go:236).  To print the
struct, `fmt` calls the `String` method of its fields `ID`, `Protocols` and `Replies`, in
that order, so the call returns exactly when those three calls return.  The text written
to the log is not modelled. -/
def printlnSource (fuel : Nat) (s : Source) : Option Unit :=
  match SourceID.String fuel s.ID with
  | none => none
  | some _ =>
    match Protocol.String fuel s.Protocols with
    | none => none
    | some _ =>
      match FamilyReply.String fuel s.Replies with
      | none => none
      | some _ => some ()

/-- One iteration of `for k, v := range sourcesList` acting on the map under construction:
an entry that passes the guards is logged and then stored.  `none` means that the log
call, and with it the iteration, does not return within `fuel`. -/
def validSourcesStep (fuel : Nat) (sf : SourceFilter) (validSources : SourceMap)
    (kv : SourceID × Source) : Option SourceMap :=
  match narrowEntry sf kv.2 with
  | none => some validSources
  | some s =>
    match printlnSource fuel s with
    | none => none
    | some _ => some (mapSet validSources kv.1 s)

/-- The loop `for k, v := range sourcesList` of `getValidSources` over the entries still
to visit. -/
def rangeValidSources (fuel : Nat) (sf : SourceFilter) :
    List (SourceID × Source) → SourceMap → Option SourceMap
  | [], validSources => some validSources
  | kv :: rest, validSources =>
    match validSourcesStep fuel sf validSources kv with
    | none => none
    | some validSources => rangeValidSources fuel sf rest validSources

/-- The function `getValidSources`; the filter `none` is the nil filter.  `fuel` is the
fuel of every call of `String` made by the log calls; the result `none` means that the
function does not return within it. -/
def getValidSources (fuel : Nat) (sf : Option SourceFilter) (sourcesList : SourceMap) :
    Option SourceMap :=
  match sf with
  | none => some sourcesList
  | some sf => rangeValidSources fuel sf sourcesList []

/-- The map literal `sourcesList` built at the start of `Get` (pubip.go:148-185). -/
def sourcesList : SourceMap :=
  [ (IFCONFIGME,
      { ID := IFCONFIGME, Address := "ifconfig.me/ip",
        Protocols := HTTP ||| HTTPS, Replies := IPv4 }),
    (ICANHAZIP,
      { ID := ICANHAZIP, Address := "icanhazip.com",
        AddressIPv4 := "ipv4.icanhazip.com", AddressIPv6 := "ipv6.icanhazip.com",
        Protocols := HTTP ||| HTTPS, Replies := IPv4 ||| IPv6 }),
    (IPIFY,
      { ID := IPIFY, Address := "api.ipify.org",
        AddressIPv4 := "api.ipify.org", AddressIPv6 := "api64.ipify.org",
        Protocols := HTTP ||| HTTPS, Replies := IPv4 ||| IPv6 }),
    (GOOGLEDNSTXT,
      { ID := GOOGLEDNSTXT, Address := "o-o.myaddr.l.google.com",
        Server := "ns1.google.com",
        Protocols := DNS_TXT, Replies := IPv4 ||| IPv6 }),
    (OPENDNS,
      { ID := OPENDNS, Address := "myip.opendns.com",
        Server := "resolver1.opendns.com",
        Protocols := DNS, Replies := IPv4 ||| IPv6 }) ]

/-- The guards of the loop body of `getValidSources` read as one condition: the body reaches
the assignment `validSources[k] = s` exactly when none of its three `continue` statements
(pubip.go:204-212) is taken. -/
def Keeps (sf : SourceFilter) (v : Source) : Prop :=
  (sf.Proto = 0 ∨ v.Protocols &&& sf.Proto ≠ 0) ∧
  (sf.Replies = 0 ∨ v.Replies &&& sf.Replies ≠ 0) ∧
  (sf.ID = 0 ∨ v.ID &&& sf.ID ≠ 0)

instance (sf : SourceFilter) (v : Source) : Decidable (Keeps sf v) := by
  unfold Keeps; infer_instance

/-- The values of a catalog fit a non-negative Go `int`: bit 63 is clear in the `ID`, the
`Protocols` and the `Replies` of every entry. -/
def CatalogFits (L : SourceMap) : Prop :=
  ∀ kv ∈ L, kv.2.ID < 2 ^ 63 ∧ kv.2.Protocols < 2 ^ 63 ∧ kv.2.Replies < 2 ^ 63

instance (L : SourceMap) : Decidable (CatalogFits L) := by
  unfold CatalogFits; infer_instance

/-- A catalog with one entry whose `ID` is the least `int`, the value with only bit 63 set. -/
def minIntCatalog : SourceMap :=
  [(2 ^ 63, { ID := 2 ^ 63, Address := "ip.example.org", Protocols := HTTPS, Replies := IPv4 })]

/-! ## The environment: network and standard library -/

/-- A value of the Go type `net.IP`, a byte slice; `none` is the nil slice. -/
abbrev NetIP := Option (List Nat)

/-- A value of the Go type `error`; `none` is nil. -/
abbrev GoError := Option String

/-- A computation that either returns a value or stops with a run-time panic. -/
abbrev Run (α : Type) := Except String α

/-- The network calls the package makes, as they are recorded in the call trace. -/
inductive Call where
  | httpGet (url : String)
  | lookupHost (host : String)
  | exchange (qname : String) (qtype : Nat) (serverport : String)
deriving DecidableEq

/-- An answer record of a DNS reply, told apart by the dynamic types that `getDNSQuery`
tests for (`*dns.A`, `*dns.AAAA`, `*dns.TXT`); `other` carries the type code of any
other record. -/
inductive RR where
  | A (a : NetIP)
  | AAAA (aaaa : NetIP)
  | TXT (txt : List String)
  | other (rrtype : Nat)
deriving DecidableEq

/-- A response of `http.Get`: what `ioutil.ReadAll(resp.Body)` will return. -/
structure Response where
  ReadAll : Except String String

/-- The query type `dns.TypeANY`. -/
def TypeANY : Nat := 255

/-- Everything outside the package.  The three network primitives may answer differently
depending on the calls made so far, which they receive as their first argument.  The other
fields are pure functions of the Go standard library and of `miekg/dns`. -/
structure Net where
  httpGet : List Call → String → Except String Response
  LookupHost : List Call → String → Except String (List String)
  Exchange : List Call → String → Nat → String → Except String (List RR)
  ParseIP : String → NetIP
  TrimSpace : String → String
  JoinHostPort : String → String → String
  LastIndex : String → String → Int
  Fqdn : String → String

/-! ## Fetching (pubip.go:117-145, 266-347) -/

/-- The function `stringToNetIP`. -/
def stringToNetIP (net : Net) (ipstring : String) (err : GoError) : NetIP × Bool :=
  if err ≠ none then (none, false)
  else
    let ip := net.ParseIP ipstring
    if ip ≠ none then (ip, true)
    else (none, false)

/-- The function `getHTTPBody`; the request is recorded in the trace. -/
def getHTTPBody (net : Net) (url : String) (tr : List Call) :
    (String × GoError) × List Call :=
  match net.httpGet tr url with
  | .error err => (("", some err), tr ++ [Call.httpGet url])
  | .ok resp =>
    match resp.ReadAll with
    | .error err => (("", some err), tr ++ [Call.httpGet url])
    | .ok body => ((net.TrimSpace body, none), tr ++ [Call.httpGet url])

/-- The address the query is sent to (pubip.go:297-313): the first address `net.LookupHost`
finds for `server`, with port 53, or `server` itself when the lookup fails.  Indexing
`addrs[0]` on an empty slice is a run-time panic. -/
def dnsServerport (net : Net) (server : String) (tr : List Call) : Run String :=
  let looked : Run String :=
    match net.LookupHost tr server with
    | .ok [] => .error "index out of range [0] with length 0"
    | .ok (a :: _) => .ok (net.JoinHostPort a "53")
    | .error _ => .ok server
  match looked with
  | .error p => .error p
  | .ok serverport =>
    if net.LastIndex serverport ":" < 0 then .ok (net.JoinHostPort serverport "53")
    else .ok serverport

/-- The function `getDNSQuery`.  Both network calls are recorded in the trace. -/
def getDNSQuery (net : Net) (addr server : String) (tr : List Call) :
    Run (NetIP × GoError) × List Call :=
  let qname := net.Fqdn addr
  let tr₁ := tr ++ [Call.lookupHost server]
  match dnsServerport net server tr with
  | .error p => (.error p, tr₁)
  | .ok serverport =>
    let tr₂ := tr₁ ++ [Call.exchange qname TypeANY serverport]
    match net.Exchange tr₁ qname TypeANY serverport with
    | .error err => (.ok (none, some err), tr₂)
    | .ok [] => (.ok (none, some "Not enough content in answer in reply"), tr₂)
    | .ok (RR.A a :: _) => (.ok (a, none), tr₂)
    | .ok (RR.AAAA aaaa :: _) => (.ok (aaaa, none), tr₂)
    | .ok (RR.TXT txt :: _) =>
      let text := txt.foldl (fun b t => b ++ t) ""
      let ip := net.ParseIP text
      if ip ≠ none then (.ok (ip, none), tr₂)
      else (.ok (none, some "Failed to get A or AAAA reply"), tr₂)
    | .ok (RR.other _ :: _) => (.ok (none, some "Failed to get A or AAAA reply"), tr₂)

/-- The tail of `Fetch` from its third `if` on (pubip.go:132-144). -/
def fetchFromDNS (net : Net) (s : Source) (tr : List Call) : Run (NetIP × Bool) × List Call :=
  if s.Protocols &&& DNS ≠ 0 ∨ s.Protocols &&& DNS_TXT ≠ 0 then
    match getDNSQuery net s.Address s.Server tr with
    | (.error p, tr) => (.error p, tr)
    | (.ok (ip, err), tr) =>
      if err = none then (.ok (ip, true), tr)
      else (.ok (none, false), tr)
  else (.ok (none, false), tr)

/-- The tail of `Fetch` from its second `if` on (pubip.go:125-144). -/
def fetchFromHTTP (net : Net) (s : Source) (tr : List Call) : Run (NetIP × Bool) × List Call :=
  if s.Protocols &&& HTTP ≠ 0 then
    let url := "http://" ++ s.Address
    let r := getHTTPBody net url tr
    let res := stringToNetIP net r.1.1 r.1.2
    if res.2 then (.ok (res.1, res.2), r.2)
    else fetchFromDNS net s r.2
  else fetchFromDNS net s tr

/-- The method `Source.Fetch`. -/
def Fetch (net : Net) (s : Source) (tr : List Call) : Run (NetIP × Bool) × List Call :=
  if s.Protocols &&& HTTPS ≠ 0 then
    let url := "https://" ++ s.Address
    let r := getHTTPBody net url tr
    let res := stringToNetIP net r.1.1 r.1.2
    if res.2 then (.ok (res.1, res.2), r.2)
    else fetchFromHTTP net s r.2
  else fetchFromHTTP net s tr

/-! ## The lookup (pubip.go:147-194) -/

/-- The loop `for _, s := range ...` of `Get` over the candidates in the order in which
the range statement visits them, followed by the final `return nil, false`. -/
def rangeFetch (net : Net) : List Source → List Call → Run (NetIP × Bool) × List Call
  | [], tr => (.ok (none, false), tr)
  | s :: rest, tr =>
    match Fetch net s tr with
    | (.error p, tr) => (.error p, tr)
    | (.ok (ip, ok), tr) =>
      if ok then (.ok (ip, ok), tr)
      else rangeFetch net rest tr

/-- The function `Get`.  Go leaves the order of a `range` over a map unspecified; `visit`
is the order taken by this run and is meant to be a rearrangement of the entries.  The
result `none` means that `getValidSources` does not return within `fuel`. -/
def Get (fuel : Nat) (net : Net) (visit : SourceMap → SourceMap) (sf : Option SourceFilter)
    (tr : List Call) : Option (Run (NetIP × Bool) × List Call) :=
  match getValidSources fuel sf sourcesList with
  | none => none
  | some validSources => some (rangeFetch net ((visit validSources).map Prod.snd) tr)

/-- A visiting order is admissible when it rearranges the entries and does nothing else. -/
def IsRangeOrder (visit : SourceMap → SourceMap) : Prop :=
  ∀ m, (visit m).Perm m

/-! ## Failure of one attempt, stated on the primitives -/

/-- An HTTPS or HTTP attempt for `url` made at trace `tr` fails: the request or the read of
its body returns an error, or the trimmed body is not an IP literal. -/
def HTTPAttemptFails (net : Net) (tr : List Call) (url : String) : Prop :=
  (∃ err, net.httpGet tr url = .error err) ∨
  (∃ resp, net.httpGet tr url = .ok resp ∧
    ((∃ err, resp.ReadAll = .error err) ∨
     (∃ body, resp.ReadAll = .ok body ∧ net.ParseIP (net.TrimSpace body) = none)))

/-- The DNS attempt made at trace `tr` fails: `getDNSQuery` returns a non-nil error. -/
def DNSAttemptFails (net : Net) (tr : List Call) (addr server : String) : Prop :=
  ∃ ip err, (getDNSQuery net addr server tr).1 = .ok (ip, some err)

/-! ## Reference models of the library functions

The theorems below hold for every `Net`.  The definitions of this section give one
concrete `Net` for the closed examples: they follow the documented behaviour of
`net.ParseIP`, `strings.TrimSpace`, `net.JoinHostPort`, `strings.LastIndex` and `dns.Fqdn`
on text, and answer the three network primitives from fixed tables. -/

namespace Ref

/-- The leading decimal digits of the input: value, number of digits, rest. -/
def dtoi : List Char → Nat → Nat → Nat × Nat × List Char
  | [], n, i => (n, i, [])
  | c :: cs, n, i =>
    if 48 ≤ c.toNat ∧ c.toNat ≤ 57 then dtoi cs (n * 10 + (c.toNat - 48)) (i + 1)
    else (n, i, c :: cs)

/-- The value of a hexadecimal digit. -/
def hexVal (c : Char) : Option Nat :=
  if 48 ≤ c.toNat ∧ c.toNat ≤ 57 then some (c.toNat - 48)
  else if 97 ≤ c.toNat ∧ c.toNat ≤ 102 then some (c.toNat - 97 + 10)
  else if 65 ≤ c.toNat ∧ c.toNat ≤ 70 then some (c.toNat - 65 + 10)
  else none

/-- The leading hexadecimal digits of the input: value, number of digits, rest. -/
def xtoi : List Char → Nat → Nat → Nat × Nat × List Char
  | [], n, i => (n, i, [])
  | c :: cs, n, i =>
    match hexVal c with
    | some d => xtoi cs (n * 16 + d) (i + 1)
    | none => (n, i, c :: cs)

/-- Reads `k` dot-separated decimal octets; `first` is true before the first of them. -/
def parseOctets : Nat → Bool → List Char → Option (List Nat × List Char)
  | 0, _, s => some ([], s)
  | k + 1, first, s =>
    if s = [] then none
    else
      let afterDot : Option (List Char) :=
        if first then some s
        else match s with
          | '.' :: t => some t
          | _ => none
      match afterDot with
      | none => none
      | some s₁ =>
        let r := dtoi s₁ 0 0
        if r.2.1 = 0 ∨ r.1 > 255 then none
        else if r.2.1 > 1 ∧ s₁.head? = some '0' then none
        else
          match parseOctets k false r.2.2 with
          | none => none
          | some (bs, rest) => some (r.1 :: bs, rest)

/-- Dotted-quad text to the four octets. -/
def parseIPv4Octets (s : List Char) : Option (List Nat) :=
  match parseOctets 4 true s with
  | some (bs, []) => some bs
  | _ => none

/-- The 16-byte form of an IPv4 address. -/
def v4InV6 (bs : List Nat) : List Nat :=
  [0, 0, 0, 0, 0, 0, 0, 0, 0, 0, 255, 255] ++ bs

/-- The group loop of the IPv6 reader: the bytes read so far, the position of the
ellipsis if one was seen, and the unread text. -/
def parseIPv6Loop : Nat → List Nat → Option Nat → List Char →
    Option (List Nat × Option Nat × List Char)
  | 0, bytes, e, s => some (bytes, e, s)
  | fuel + 1, bytes, e, s =>
    if bytes.length ≥ 16 then some (bytes, e, s)
    else
      let r := xtoi s 0 0
      if r.2.1 = 0 ∨ r.2.1 > 4 ∨ r.1 > 65535 then none
      else if r.2.2.head? = some '.' then
        if e = none ∧ bytes.length ≠ 12 then none
        else if bytes.length + 4 > 16 then none
        else
          match parseIPv4Octets s with
          | none => none
          | some bs => some (bytes ++ bs, e, [])
      else
        let bytes₁ := bytes ++ [r.1 / 256, r.1 % 256]
        match r.2.2 with
        | [] => some (bytes₁, e, [])
        | c :: t =>
          if c ≠ ':' ∨ t = [] then none
          else
            match t with
            | ':' :: t₁ =>
              if e ≠ none then none
              else if t₁ = [] then some (bytes₁, some bytes₁.length, [])
              else parseIPv6Loop fuel bytes₁ (some bytes₁.length) t₁
            | _ => parseIPv6Loop fuel bytes₁ e t

/-- Colon-separated hexadecimal text to sixteen bytes. -/
def parseIPv6 (s : List Char) : NetIP :=
  let start : Option Nat × List Char :=
    match s with
    | ':' :: ':' :: t => (some 0, t)
    | _ => (none, s)
  if start.1 = some 0 ∧ start.2 = [] then some (List.replicate 16 0)
  else
    match parseIPv6Loop 8 [] start.1 start.2 with
    | none => none
    | some (bytes, e, rest) =>
      if rest ≠ [] then none
      else if bytes.length < 16 then
        match e with
        | none => none
        | some pos =>
          some (bytes.take pos ++ List.replicate (16 - bytes.length) 0 ++ bytes.drop pos)
      else if e ≠ none then none
      else some bytes

/-- Reference model of `net.ParseIP`: the first dot or colon decides the form. -/
def ParseIP (s : String) : NetIP :=
  match s.data.find? (fun c => c = '.' ∨ c = ':') with
  | some '.' => (parseIPv4Octets s.data).map v4InV6
  | some _ => parseIPv6 s.data
  | none => none

/-- The characters `unicode.IsSpace` accepts. -/
def isSpace (c : Char) : Bool :=
  let n := c.toNat
  (9 ≤ n ∧ n ≤ 13) ∨ n = 32 ∨ n = 133 ∨ n = 160 ∨ n = 5760 ∨ (8192 ≤ n ∧ n ≤ 8202) ∨
    n = 8232 ∨ n = 8233 ∨ n = 8239 ∨ n = 8287 ∨ n = 12288

/-- Reference model of `strings.TrimSpace`. -/
def TrimSpace (s : String) : String :=
  String.mk (((s.data.dropWhile isSpace).reverse.dropWhile isSpace).reverse)

/-- Reference model of `net.JoinHostPort`. -/
def JoinHostPort (host port : String) : String :=
  if ':' ∈ host.data then "[" ++ host ++ "]:" ++ port
  else host ++ ":" ++ port

/-- The last position at which `sep` starts in `s`, scanning positions from `i` upward. -/
def lastIndexFrom (sep : List Char) : List Char → Nat → Int → Int
  | [], i, best => if sep = [] then (i : Int) else best
  | c :: cs, i, best =>
    lastIndexFrom sep cs (i + 1) (if sep.isPrefixOf (c :: cs) then (i : Int) else best)

/-- Reference model of `strings.LastIndex`, counting positions in characters. -/
def LastIndex (s sep : String) : Int :=
  lastIndexFrom sep.data s.data 0 (-1)

/-- Reference model of `dns.Fqdn`: a name that ends in an unescaped dot is kept, any other
name gets a dot appended. -/
def Fqdn (s : String) : String :=
  match s.data.reverse with
  | '.' :: before =>
    if (before.takeWhile (fun c => c.toNat = 92)).length % 2 = 0 then s
    else s ++ "."
  | _ => s ++ "."

/-- A network that answers HTTP requests from `http` and DNS from `hosts` and `dns`, the
same way at every point of the trace. -/
def tableNet (http : String → Except String Response)
    (hosts : String → Except String (List String))
    (dns : String → String → Except String (List RR)) : Net :=
  { httpGet := fun _ url => http url
    LookupHost := fun _ host => hosts host
    Exchange := fun _ qname _ serverport => dns qname serverport
    ParseIP := ParseIP
    TrimSpace := TrimSpace
    JoinHostPort := JoinHostPort
    LastIndex := LastIndex
    Fqdn := Fqdn }

end Ref

/-! ## Concrete inputs of the closed examples -/

/-- A catalog entry that answers IPv4 only and has an IPv4 address of its own. -/
def v4OnlyEntry : Source :=
  { ID := 1, Address := "ip.example.org", AddressIPv4 := "ipv4.example.org",
    Protocols := HTTPS, Replies := IPv4 }

/-- A network in which `https://ifconfig.me/ip` answers the text `203.0.113.7` followed by
a line break, and every other request fails. -/
def httpsAnswersNet : Net :=
  Ref.tableNet
    (fun url =>
      if url = "https://ifconfig.me/ip" then .ok { ReadAll := .ok "203.0.113.7\n" }
      else .error "connection refused")
    (fun _ => .error "no such host")
    (fun _ _ => .error "i/o timeout")

/-- A source with the HTTPS bit and other protocol bits besides. -/
def manyProtocolsSource : Source :=
  { ID := IFCONFIGME, Address := "ifconfig.me/ip", Server := "ns.example.org",
    Protocols := HTTP ||| HTTPS ||| DNS ||| DNS_TXT, Replies := IPv4 }

/-- A network in which `https://ifconfig.me/ip` answers the text `rate limited` and every
other request fails. -/
def rateLimitedNet : Net :=
  Ref.tableNet
    (fun url =>
      if url = "https://ifconfig.me/ip" then .ok { ReadAll := .ok "rate limited" }
      else .error "connection refused")
    (fun _ => .error "no such host")
    (fun _ _ => .error "i/o timeout")

/-- The catalog entry of IFCONFIGME: HTTP and HTTPS only. -/
def ifconfigmeSource : Source :=
  { ID := IFCONFIGME, Address := "ifconfig.me/ip", Protocols := HTTP ||| HTTPS,
    Replies := IPv4 }

/-- A network in which the name server resolves and answers one TXT record whose text comes
in the two segments `2001:db8::` and `1`, followed by a second record. -/
def txtAnswerNet : Net :=
  Ref.tableNet
    (fun _ => .error "connection refused")
    (fun host => if host = "ns1.google.com" then .ok ["216.239.32.10"] else .error "no such host")
    (fun qname serverport =>
      if qname = "o-o.myaddr.l.google.com." ∧ serverport = "216.239.32.10:53" then
        .ok [RR.TXT ["2001:db8::", "1"], RR.A (some [192, 0, 2, 1])]
      else .error "i/o timeout")

/-- The catalog entry of GOOGLEDNSTXT: DNS_TXT only. -/
def googleTxtSource : Source :=
  { ID := GOOGLEDNSTXT, Address := "o-o.myaddr.l.google.com", Server := "ns1.google.com",
    Protocols := DNS_TXT, Replies := IPv4 ||| IPv6 }

/-! ## The handle (pubip.go:15-18, 244-264) -/

/-- The struct `PublicIP`; `SourceFilter` is a pointer and `none` is nil. -/
structure PublicIP where
  IP : NetIP := none
  SourceFilter : Option SourceFilter := none
deriving DecidableEq

/-- The function `NewEmpty`. -/
def NewEmpty : PublicIP := {}

/-- The method `PublicIP.Update`: the handle after the call and the returned flag.  The
result `none` means that `Get` does not return within `fuel`. -/
def Update (fuel : Nat) (net : Net) (visit : SourceMap → SourceMap) (pip : PublicIP)
    (tr : List Call) : Option (Run (PublicIP × Bool) × List Call) :=
  match Get fuel net visit pip.SourceFilter tr with
  | none => none
  | some (.error p, tr) => some (.error p, tr)
  | some (.ok (ip, ok), tr) =>
    if ok then some (.ok ({ pip with IP := ip }, true), tr)
    else some (.ok (pip, false), tr)

/-- A handle that holds an address from an earlier lookup and a filter no provider passes. -/
def staleHandle : PublicIP :=
  { IP := some [0, 0, 0, 0, 0, 0, 0, 0, 0, 0, 255, 255, 198, 51, 100, 9],
    SourceFilter := some { ID := 32 } }

/-! ## The attempts of one `Fetch`, stated on the primitives -/

/-- One attempt of `Fetch`: an HTTPS request, an HTTP request, or one DNS query. -/
inductive Attempt where
  | https (url : String)
  | http (url : String)
  | dns (addr server : String)
deriving DecidableEq

/-- The attempts a source allows, in the fixed order HTTPS, HTTP, DNS: one per protocol
whose bit is set, and a single DNS query when the DNS bit or the DNS_TXT bit is set. -/
def plannedAttempts (s : Source) : List Attempt :=
  (if s.Protocols &&& HTTPS ≠ 0 then [Attempt.https ("https://" ++ s.Address)] else []) ++
  (if s.Protocols &&& HTTP ≠ 0 then [Attempt.http ("http://" ++ s.Address)] else []) ++
  (if s.Protocols &&& DNS ≠ 0 ∨ s.Protocols &&& DNS_TXT ≠ 0 then
    [Attempt.dns s.Address s.Server] else [])

/-- Whether the request for `url` made at trace `tr` returns a body whose trimmed text is
an IP literal. -/
def httpBodyParses (net : Net) (tr : List Call) (url : String) : Bool :=
  match net.httpGet tr url with
  | .error _ => false
  | .ok resp =>
    match resp.ReadAll with
    | .error _ => false
    | .ok body => (net.ParseIP (net.TrimSpace body)).isSome

/-- Whether `getDNSQuery` started at trace `tr` returns with a nil error. -/
def dnsQueryAnswers (net : Net) (tr : List Call) (addr server : String) : Bool :=
  match (getDNSQuery net addr server tr).1 with
  | .ok (_, none) => true
  | _ => false

/-- Whether an attempt started at trace `tr` succeeds. -/
def attemptSucceeds (net : Net) (tr : List Call) : Attempt → Bool
  | .https url => httpBodyParses net tr url
  | .http url => httpBodyParses net tr url
  | .dns addr server => dnsQueryAnswers net tr addr server

/-- The network calls an attempt started at trace `tr` makes: one request for HTTPS and for
HTTP; for DNS the host lookup and, unless resolving the server address panics, one
exchange. -/
def attemptCalls (net : Net) (tr : List Call) : Attempt → List Call
  | .https url => [Call.httpGet url]
  | .http url => [Call.httpGet url]
  | .dns addr server =>
    Call.lookupHost server ::
      match dnsServerport net server tr with
      | .ok serverport => [Call.exchange (net.Fqdn addr) TypeANY serverport]
      | .error _ => []

/-- Making the attempts of a list in order, each at the trace the earlier ones left, up to
and including the first that succeeds: the attempts made, each with its outcome, and the
trace at the end. -/
def attemptsMade (net : Net) : List Call → List Attempt → List (Attempt × Bool) × List Call
  | tr, [] => ([], tr)
  | tr, a :: rest =>
    if attemptSucceeds net tr a then ([(a, true)], tr ++ attemptCalls net tr a)
    else
      let r := attemptsMade net (tr ++ attemptCalls net tr a) rest
      ((a, false) :: r.1, r.2)

/-- A source with both DNS bits set and nothing else. -/
def bothDNSSource : Source :=
  { ID := OPENDNS, Address := "myip.opendns.com", Server := "resolver1.opendns.com",
    Protocols := DNS ||| DNS_TXT, Replies := IPv4 ||| IPv6 }

/-! ## Networks that answer the same at every point of the trace -/

/-- The three network primitives of `net` ignore the trace they are given. -/
def TraceBlind (net : Net) : Prop :=
  (∀ t t' url, net.httpGet t url = net.httpGet t' url) ∧
  (∀ t t' host, net.LookupHost t host = net.LookupHost t' host) ∧
  (∀ t t' qname qtype serverport,
    net.Exchange t qname qtype serverport = net.Exchange t' qname qtype serverport)

/-- What `Fetch` returns for a source on the network `httpsAnswersNet`. -/
def httpsAnswersOutcome (s : Source) : NetIP × Bool :=
  match (Fetch httpsAnswersNet s []).1 with
  | .ok r => r
  | .error _ => (none, false)

/-- The descriptors of the static catalog, in the order of the map literal. -/
def catalogSources : List Source := sourcesList.map Prod.snd

/-! ## The provider-name loop of the command (cmd/gopubip.go:13-48) -/

/-- The call `strconv.Itoa(int(x))` on the bit pattern of a 64-bit `int`. -/
def Itoa (x : Nat) : String :=
  if x < 2 ^ 63 then Nat.repr x
  else "-" ++ Nat.repr (2 ^ 64 - x)

/-- The statement `sid <<= 1` on the bit pattern of a 64-bit `int`. -/
def shlInt (x : Nat) : Nat := (x * 2) % 2 ^ 64

/-- The function `unicode.ToUpper` on one code point.  The value is spelled out on ASCII,
where the letters `a` to `z` become `A` to `Z` and nothing else changes, and on the two
code points outside ASCII whose upper case is an ASCII letter, U+0131 (dotless i) with
upper case `I` and U+017F (long s) with upper case `S`.  `rest` is the table for every
other code point. -/
def toUpperRune (rest : Char → Char) (c : Char) : Char :=
  if 97 ≤ c.toNat ∧ c.toNat ≤ 122 then Char.ofNat (c.toNat - 32)
  else if c.toNat < 128 then c
  else if c.toNat = 305 then 'I'
  else if c.toNat = 383 then 'S'
  else rest c

/-- The function `strings.ToUpper`: every code point is replaced by its upper case. -/
def stringsToUpper (rest : Char → Char) (s : String) : String :=
  String.mk (s.data.map (toUpperRune rest))

/-- The loop `for sid := SourceID(1 << 0); sid.String() != strconv.Itoa(int(sid)); sid <<= 1`
from a given state: the value of `pip.SourceFilter` when the loop ends, and the values of
`sid` for which the body ran.  `rest` is the table of `unicode.ToUpper` outside ASCII, `n`
bounds the number of tests of the loop condition, `fuel` is the fuel of every call of
`String`. -/
def providerLoop (rest : Char → Char) (fuel : Nat) (id : String) :
    Nat → SourceID → Option SourceFilter → List SourceID →
    Option (Option SourceFilter × List SourceID)
  | 0, _, _, _ => none
  | n + 1, sid, sf, seen =>
    match SourceID.String fuel sid with
    | none => none
    | some name =>
      if name ≠ Itoa sid then
        if stringsToUpper rest id = stringsToUpper rest name then
          let f : SourceFilter :=
            match sf with
            | none => NewSourceFilter
            | some f => f
          some (some { f with ID := sid }, seen ++ [sid])
        else providerLoop rest fuel id n (shlInt sid) sf (seen ++ [sid])
      else some (sf, seen)

/-- The value of `pip.SourceFilter` after the flags `-4` and `-6` have been handled
(cmd/gopubip.go:14-37), starting from the handle `NewEmpty` returns. -/
def flagsFilter (ipv4 ipv6 : Bool) : Option SourceFilter :=
  let sf : Option SourceFilter := NewEmpty.SourceFilter
  let sf : Option SourceFilter :=
    if ipv4 then
      let f : SourceFilter :=
        match sf with
        | none => NewSourceFilter
        | some f => f
      some { f with Replies := f.Replies ||| IPv4 }
    else sf
  if ipv6 then
    let f : SourceFilter :=
      match sf with
      | none => NewSourceFilter
      | some f => f
    some { f with Replies := f.Replies ||| IPv6 }
  else sf

/-- The part of `main` that builds `pip.SourceFilter` from the flags `-4`, `-6` and `-i`
(cmd/gopubip.go:14-48). -/
def mainFilter (rest : Char → Char) (fuel n : Nat) (ipv4 ipv6 : Bool) (id : String) :
    Option (Option SourceFilter × List SourceID) :=
  providerLoop rest fuel id n 1 (flagsFilter ipv4 ipv6) []

/-- The text consists of ASCII characters. -/
def IsASCII (s : String) : Prop := ∀ c ∈ s.data, c.toNat < 128

instance (s : String) : Decidable (IsASCII s) := by
  unfold IsASCII; infer_instance

/-- Lower case of the letters `A` to `Z`; every other character is kept. -/
def foldRune (c : Char) : Char :=
  if 65 ≤ c.toNat ∧ c.toNat ≤ 90 then Char.ofNat (c.toNat + 32) else c

/-- Two texts are equal ignoring case: they have the same length and agree character by
character once the letters `A` to `Z` are replaced by `a` to `z`. -/
def EqualIgnoringCase (a b : String) : Prop :=
  a.data.map foldRune = b.data.map foldRune

instance (a b : String) : Decidable (EqualIgnoringCase a b) := by
  unfold EqualIgnoringCase; infer_instance

/-! ## Lemmas on association-list maps -/

theorem mapGet_mapSet_same (m : SourceMap) (k : SourceID) (v : Source) :
    mapGet (mapSet m k v) k = some v := by
  induction m with
  | nil => simp [mapSet, mapGet]
  | cons hd tl ih =>
    obtain ⟨k', v'⟩ := hd
    by_cases h : k' = k
    · simp [mapSet, mapGet, h]
    · simp [mapSet, mapGet, h, ih]

theorem mapGet_mapSet_ne (m : SourceMap) (k k' : SourceID) (v : Source) (h : k ≠ k') :
    mapGet (mapSet m k v) k' = mapGet m k' := by
  induction m with
  | nil => simp [mapSet, mapGet, h]
  | cons hd tl ih =>
    obtain ⟨k₀, v₀⟩ := hd
    by_cases h₀ : k₀ = k
    · subst h₀; simp [mapSet, mapGet, h]
    · by_cases h₁ : k₀ = k'
      · subst h₁; simp [mapSet, mapGet, h₀]
      · simp [mapSet, mapGet, h₀, h₁, ih]

theorem mapGet_eq_none_iff (m : SourceMap) (k : SourceID) :
    mapGet m k = none ↔ k ∉ mapKeys m := by
  induction m with
  | nil => simp [mapGet, mapKeys]
  | cons hd tl ih =>
    obtain ⟨k', v'⟩ := hd
    by_cases h : k' = k
    · simp [mapGet, mapKeys, h]
    · have h' : ¬ k = k' := fun e => h e.symm
      simp only [mapKeys] at ih
      simp [mapGet, mapKeys, h, h', ih]

theorem mem_mapKeys_iff (m : SourceMap) (k : SourceID) :
    k ∈ mapKeys m ↔ ∃ v, mapGet m k = some v := by
  have h := mapGet_eq_none_iff m k
  cases hg : mapGet m k with
  | none => simp [hg] at h; simp [h]
  | some v => simp [hg] at h; simp [h]

theorem mapKeys_mapSet (m : SourceMap) (k k' : SourceID) (v : Source) :
    k' ∈ mapKeys (mapSet m k v) ↔ k' = k ∨ k' ∈ mapKeys m := by
  by_cases h : k' = k
  · subst h
    simp [mem_mapKeys_iff, mapGet_mapSet_same]
  · have h' : k ≠ k' := fun e => h e.symm
    simp [mem_mapKeys_iff, mapGet_mapSet_ne _ _ _ _ h', h]

theorem keysNodup_mapSet (m : SourceMap) (k : SourceID) (v : Source) (h : KeysNodup m) :
    KeysNodup (mapSet m k v) := by
  induction m with
  | nil => simp [mapSet, KeysNodup, mapKeys]
  | cons hd tl ih =>
    obtain ⟨k', v'⟩ := hd
    have hcons : k' ∉ mapKeys tl ∧ KeysNodup tl := by
      simpa [KeysNodup, mapKeys] using h
    by_cases hk : k' = k
    · subst hk
      simpa [mapSet, KeysNodup, mapKeys] using h
    · have hnew : k' ∉ mapKeys (mapSet tl k v) := by
        rw [mapKeys_mapSet]
        exact fun hor => hor.elim hk hcons.1
      have hrec := ih hcons.2
      simp only [KeysNodup, mapKeys] at hrec hnew
      simp [mapSet, hk, KeysNodup, mapKeys, hnew, hrec]

/-! ## Rendering of bitmasks: claims -/

theorem shl1_of_lt (i : Nat) (h : i < 64) : shl1 i = 2 ^ i := by
  simp [shl1, h]

theorem bitmaskBody_fst (m : NameTable) (p : Nat) (st : Nat × String) :
    (bitmaskBody m p st).1 = (st.1 + 1) % 2 ^ 64 := rfl

theorem bitmaskBody_iterate_fst (m : NameTable) (p : Nat) (s : String) (k : Nat)
    (hk : k ≤ 64) : ((bitmaskBody m p)^[k] (0, s)).1 = k := by
  induction k with
  | zero => rfl
  | succ k ih =>
    rw [Function.iterate_succ_apply', bitmaskBody_fst, ih (by omega)]
    exact Nat.mod_eq_of_lt (by omega)

theorem size_le_63 (p : Nat) (hp : p < 2 ^ 63) : Nat.size p ≤ 63 :=
  Nat.size_le.2 hp

theorem bitmaskLoop_eq (m : NameTable) (p : Nat) (hp : p < 2 ^ 63) (fuel : Nat)
    (st : Nat × String) (hst : st.1 ≤ Nat.size p) :
    bitmaskLoop m p fuel st
      = if Nat.size p - st.1 < fuel then
          some ((bitmaskBody m p)^[Nat.size p - st.1] st).2
        else none := by
  have hn := size_le_63 p hp
  induction fuel generalizing st with
  | zero => simp [bitmaskLoop]
  | succ fuel ih =>
    unfold bitmaskLoop
    rw [shl1_of_lt st.1 (by omega)]
    by_cases hlt : st.1 < Nat.size p
    · have hcond : 2 ^ st.1 ≤ p := Nat.lt_size.1 hlt
      have hfst : (bitmaskBody m p st).1 = st.1 + 1 := by
        rw [bitmaskBody_fst]
        exact Nat.mod_eq_of_lt (by omega)
      rw [if_pos hcond, ih (bitmaskBody m p st) (by omega), hfst]
      have hsub : Nat.size p - st.1 = (Nat.size p - (st.1 + 1)) + 1 := by omega
      rw [hsub, Function.iterate_succ_apply]
      by_cases hf : Nat.size p - (st.1 + 1) < fuel
      · rw [if_pos hf, if_pos (by omega)]
      · rw [if_neg hf, if_neg (by omega)]
    · have heq : st.1 = Nat.size p := by omega
      have hcond : ¬ 2 ^ st.1 ≤ p := fun h => hlt (Nat.lt_size.2 h)
      rw [if_neg hcond, heq, Nat.sub_self, if_pos (Nat.succ_pos _)]
      rfl

/-- C19. With `uint` 64 bits wide and `p` below `2 ^ 63`, the loop of
`getStringFromBitmaskMap` ends after exactly `Nat.size p` runs of its body, the bit length
of `p`: the loop condition holds at the first `Nat.size p` tests and fails at the next one.
That number is 0 for `p = 0` and at most 63; up to that point `i` is the number of runs
and `1 << i` is `2 ^ i`, so the shift never wraps.  The function returns a result with any
fuel above `Nat.size p` and with no less. -/
theorem bitmaskLoop_terminates (m : NameTable) (p : Nat) (hp : p < 2 ^ 63) :
    Nat.size p ≤ 63 ∧
    (p = 0 → Nat.size p = 0) ∧
    (∀ k, k < Nat.size p ↔ 2 ^ k ≤ p) ∧
    (∀ k, k ≤ Nat.size p →
      ((bitmaskBody m p)^[k] (0, "")).1 = k ∧ shl1 k = 2 ^ k) ∧
    (∀ k, k < Nat.size p → shl1 ((bitmaskBody m p)^[k] (0, "")).1 ≤ p) ∧
    ¬ (shl1 ((bitmaskBody m p)^[Nat.size p] (0, "")).1 ≤ p) ∧
    (∀ fuel, Nat.size p < fuel →
      getStringFromBitmaskMap fuel m p
        = some ((bitmaskBody m p)^[Nat.size p] (0, "")).2) ∧
    (∀ fuel, fuel ≤ Nat.size p → getStringFromBitmaskMap fuel m p = none) := by
  have hn := size_le_63 p hp
  have hfst : ∀ k, k ≤ Nat.size p → ((bitmaskBody m p)^[k] (0, "")).1 = k :=
    fun k hk => bitmaskBody_iterate_fst m p "" k (by omega)
  refine ⟨hn, ?_, fun k => Nat.lt_size, ?_, ?_, ?_, ?_, ?_⟩
  · intro h0
    subst h0
    exact Nat.size_zero
  · intro k hk
    exact ⟨hfst k hk, shl1_of_lt k (by omega)⟩
  · intro k hk
    rw [hfst k (by omega), shl1_of_lt k (by omega)]
    exact Nat.lt_size.1 hk
  · rw [hfst _ (le_refl _), shl1_of_lt _ (by omega)]
    exact fun h => absurd (Nat.lt_size.2 h) (lt_irrefl _)
  · intro fuel hf
    unfold getStringFromBitmaskMap
    rw [bitmaskLoop_eq m p hp fuel (0, "") (Nat.zero_le _)]
    simp only [Nat.sub_zero]
    rw [if_pos hf]
  · intro fuel hf
    unfold getStringFromBitmaskMap
    rw [bitmaskLoop_eq m p hp fuel (0, "") (Nat.zero_le _)]
    simp only [Nat.sub_zero]
    rw [if_neg (by omega)]

theorem bitmaskLoop_terminates_witness :
    (5 : Nat) < 2 ^ 63 ∧ Nat.size 5 = 3 ∧
    getStringFromBitmaskMap 3 familyNames 5 = none ∧
    getStringFromBitmaskMap 4 familyNames 5 = some "IPv4|4" ∧
    getStringFromBitmaskMap 1 familyNames 0 = some "" :=
  have hs : Nat.size 5 = 3 := by simp [Nat.size, Nat.binaryRec]
  ⟨by decide, hs,
    (bitmaskLoop_terminates familyNames 5 (by decide)).2.2.2.2.2.2.2 3 (by rw [hs]),
    by decide, by decide⟩

theorem intercalate_go_snoc (sep x : String) (l : List String) (acc : String) :
    String.intercalate.go acc sep (l ++ [x]) = String.intercalate.go acc sep l ++ sep ++ x := by
  induction l generalizing acc with
  | nil => simp [String.intercalate.go]
  | cons a as ih => simp [String.intercalate.go, ih]

theorem intercalate_snoc (sep x : String) (l : List String) :
    String.intercalate sep (l ++ [x])
      = if l = [] then x else String.intercalate sep l ++ sep ++ x := by
  cases l with
  | nil => simp [String.intercalate, String.intercalate.go]
  | cons a as => simp [String.intercalate, intercalate_go_snoc]

theorem append_ne_empty_right (s t : String) (ht : t ≠ "") : s ++ t ≠ "" := by
  intro h
  apply ht
  have hd : (s ++ t).data = [] := by rw [h]
  rw [String.data_append, List.append_eq_nil] at hd
  exact String.ext hd.2

theorem intercalate_go_ne_empty (sep : String) (l : List String) (acc : String)
    (hacc : acc ≠ "") (hl : ∀ x ∈ l, x ≠ "") : String.intercalate.go acc sep l ≠ "" := by
  induction l generalizing acc with
  | nil => simpa [String.intercalate.go] using hacc
  | cons a as ih =>
    simp only [String.intercalate.go]
    exact ih _ (append_ne_empty_right _ _ (hl a (List.mem_cons_self _ _)))
      (fun x hx => hl x (List.mem_cons_of_mem _ hx))

theorem intercalate_ne_empty (sep : String) (l : List String) (hne : l ≠ [])
    (hl : ∀ x ∈ l, x ≠ "") : String.intercalate sep l ≠ "" := by
  cases l with
  | nil => exact absurd rfl hne
  | cons a as =>
    simp only [String.intercalate]
    exact intercalate_go_ne_empty sep as a (hl a (List.mem_cons_self _ _))
      (fun x hx => hl x (List.mem_cons_of_mem _ hx))

theorem lookup_mem (m : NameTable) (k : Nat) (s : String) (h : m.lookup k = some s) :
    (k, s) ∈ m := by
  induction m with
  | nil => simp [List.lookup] at h
  | cons hd tl ih =>
    obtain ⟨k', s'⟩ := hd
    by_cases hk : k = k'
    · subst hk
      simp [List.lookup] at h
      simp [h]
    · have hb : (k == k') = false := by simpa using hk
      simp only [List.lookup, hb] at h
      exact List.mem_cons_of_mem _ (ih h)

theorem bitmaskItem_ne_empty (m : NameTable) (hm : ∀ kv ∈ m, kv.2 ≠ "") (i : Nat)
    (hi : i < 64) : bitmaskItem m i ≠ "" := by
  unfold bitmaskItem
  cases hl : m.lookup (2 ^ i) with
  | some s => exact hm _ (lookup_mem m _ s hl)
  | none =>
    have hall : ∀ j < 64, Nat.repr (2 ^ j) ≠ "" := by decide
    exact hall i hi

theorem bitmaskItemsBelow_succ (m : NameTable) (p k : Nat) :
    bitmaskItemsBelow m p (k + 1)
      = if p.testBit k then bitmaskItemsBelow m p k ++ [bitmaskItem m k]
        else bitmaskItemsBelow m p k := by
  unfold bitmaskItemsBelow
  rw [List.range_succ, List.filter_append, List.map_append]
  cases hb : p.testBit k <;> simp [hb]

theorem bitmaskItemsBelow_ne_empty (m : NameTable) (hm : ∀ kv ∈ m, kv.2 ≠ "") (p k : Nat)
    (hk : k ≤ 64) : ∀ x ∈ bitmaskItemsBelow m p k, x ≠ "" := by
  intro x hx
  simp only [bitmaskItemsBelow, List.mem_map, List.mem_filter, List.mem_range] at hx
  obtain ⟨i, ⟨hi, -⟩, rfl⟩ := hx
  exact bitmaskItem_ne_empty m hm i (by omega)

theorem and_shl_ne_zero_iff (p k : Nat) : p &&& 2 ^ k ≠ 0 ↔ p.testBit k = true := by
  rw [Nat.and_two_pow]
  cases p.testBit k <;> simp

theorem bitmaskBody_snd (m : NameTable) (p i : Nat) (pstr : String) (hi : i < 64) :
    (bitmaskBody m p (i, pstr)).2
      = if p.testBit i then (if pstr ≠ "" then pstr ++ "|" else pstr) ++ bitmaskItem m i
        else pstr := by
  have hand := and_shl_ne_zero_iff p i
  unfold bitmaskBody bitmaskItem FormatUint
  simp only [shl1_of_lt i hi]
  cases hb : p.testBit i with
  | true =>
    rw [if_pos (hand.2 hb)]
    cases m.lookup (2 ^ i) <;> simp
  | false =>
    have : ¬ p &&& 2 ^ i ≠ 0 := fun h => by
      have := hand.1 h
      rw [hb] at this
      exact absurd this (by decide)
    rw [if_neg this]
    simp

theorem bitmaskBody_iterate_snd (m : NameTable) (hm : ∀ kv ∈ m, kv.2 ≠ "") (p k : Nat)
    (hk : k ≤ 64) :
    ((bitmaskBody m p)^[k] (0, "")).2 = String.intercalate "|" (bitmaskItemsBelow m p k) := by
  induction k with
  | zero => rfl
  | succ k ih =>
    have hfst := bitmaskBody_iterate_fst m p "" k (by omega)
    have hsnd := ih (by omega)
    rw [Function.iterate_succ_apply']
    rcases hst : (bitmaskBody m p)^[k] (0, "") with ⟨i, pstr⟩
    rw [hst] at hfst hsnd
    simp only at hfst hsnd
    subst hfst
    rw [bitmaskBody_snd m p i pstr (by omega), bitmaskItemsBelow_succ]
    cases hb : p.testBit i with
    | false => simpa using hsnd
    | true =>
      simp only [if_true]
      rw [intercalate_snoc]
      by_cases hnil : bitmaskItemsBelow m p i = []
      · have hp : pstr = "" := by rw [hsnd, hnil]; rfl
        rw [if_pos hnil, hp]
        simp
      · have hp : pstr ≠ "" := by
          rw [hsnd]
          exact intercalate_ne_empty "|" _ hnil
            (bitmaskItemsBelow_ne_empty m hm p i (by omega))
        rw [if_neg hnil, if_pos hp, hsnd]

theorem bitmaskItemsBelow_of_size (m : NameTable) (p N : Nat) (hN : Nat.size p ≤ N) :
    bitmaskItemsBelow m p N = bitmaskItemsBelow m p (Nat.size p) := by
  induction N, hN using Nat.le_induction with
  | base => rfl
  | succ n hn ih =>
    rw [bitmaskItemsBelow_succ, Nat.testBit_lt_two_pow (Nat.size_le.1 hn)]
    simpa using ih

/-- Counterexample to C17 as stated.  In the table the name of bit 1 is the empty text.
For `p = 3` the items are the empty text and `B`, whose join with the separator is `|B`;
the function returns `B`, because it takes an empty accumulated text to mean that no item
has been written yet. -/
theorem empty_name_drops_separator :
    getStringFromBitmaskMap 64 [(1, ""), (2, "B")] 3 = some "B" ∧
    bitmaskItems [(1, ""), (2, "B")] 3 = ["", "B"] ∧
    String.intercalate "|" ["", "B"] = "|B" ∧
    ¬ (∀ (m : NameTable) (p : Nat), p < 2 ^ 63 →
        getStringFromBitmaskMap 64 m p = some (String.intercalate "|" (bitmaskItems m p))) := by
  refine ⟨by decide, by decide, by decide, ?_⟩
  intro h
  have h' := h [(1, ""), (2, "B")] 3 (by decide)
  exact absurd h' (by decide)

/-- C17, amended.  For a name table without empty names and `p` below `2 ^ 63`, the
function returns, with any fuel above the bit length of `p`, the items of the set bits of
`p` in ascending bit order joined by the separator `|`, where the item of a bit is the
name the table has for its value and the decimal numeral of that value otherwise; for
`p = 0` that is the empty text. -/
theorem getStringFromBitmaskMap_join (m : NameTable) (p fuel : Nat)
    (hm : ∀ kv ∈ m, kv.2 ≠ "") (hp : p < 2 ^ 63) (hfuel : Nat.size p < fuel) :
    getStringFromBitmaskMap fuel m p = some (String.intercalate "|" (bitmaskItems m p)) ∧
    (p = 0 → getStringFromBitmaskMap fuel m p = some "") := by
  have hn := size_le_63 p hp
  have hres : getStringFromBitmaskMap fuel m p
      = some (String.intercalate "|" (bitmaskItems m p)) := by
    unfold getStringFromBitmaskMap
    rw [bitmaskLoop_eq m p hp fuel (0, "") (Nat.zero_le _)]
    simp only [Nat.sub_zero]
    rw [if_pos hfuel, bitmaskBody_iterate_snd m hm p (Nat.size p) (by omega)]
    unfold bitmaskItems
    rw [bitmaskItemsBelow_of_size m p 64 (by omega)]
  refine ⟨hres, ?_⟩
  intro h0
  subst h0
  rw [hres]
  rfl

theorem getStringFromBitmaskMap_join_witness :
    (∀ kv ∈ familyNames, kv.2 ≠ "") ∧ (∀ kv ∈ protocolNames, kv.2 ≠ "") ∧
    (∀ kv ∈ sourceIDNames, kv.2 ≠ "") ∧
    bitmaskItems familyNames (IPv4 ||| IPv6) = ["IPv4", "IPv6"] ∧
    FamilyReply.String 64 (IPv4 ||| IPv6) = some "IPv4|IPv6" ∧
    Protocol.String 64 (HTTP ||| HTTPS) = some "HTTP|HTTPS" ∧
    SourceID.String 64 32 = some "32" ∧
    FamilyReply.String 64 (IPv4 ||| IPv6)
      = some (String.intercalate "|" (bitmaskItems familyNames (IPv4 ||| IPv6))) :=
  ⟨by decide, by decide, by decide, by decide, by decide, by decide, by decide,
    (getStringFromBitmaskMap_join familyNames (IPv4 ||| IPv6) 64 (by decide) (by decide)
      (by
        have h : Nat.size (IPv4 ||| IPv6) ≤ 2 := Nat.size_le.2 (by decide)
        omega)).1⟩

/-! ## One entry under a filter -/

theorem narrowEntry_isSome_iff (sf : SourceFilter) (v : Source) :
    (∃ s, narrowEntry sf v = some s) ↔ Keeps sf v := by
  unfold narrowEntry Keeps
  by_cases h1 : sf.Proto = 0 <;> by_cases h2 : v.Protocols &&& sf.Proto = 0 <;>
  by_cases h3 : sf.Replies = 0 <;> by_cases h4 : v.Replies &&& sf.Replies = 0 <;>
  by_cases h5 : sf.ID = 0 <;> by_cases h6 : v.ID &&& sf.ID = 0 <;>
  simp [h1, h2, h3, h4, h5, h6]

theorem narrowEntry_eq_none_iff (sf : SourceFilter) (v : Source) :
    narrowEntry sf v = none ↔ ¬ Keeps sf v := by
  rw [← narrowEntry_isSome_iff]
  cases narrowEntry sf v <;> simp

theorem narrowEntry_fields (sf : SourceFilter) (v s : Source) (h : narrowEntry sf v = some s) :
    s.ID = v.ID ∧ s.Server = v.Server ∧ s.AddressIPv4 = "" ∧ s.AddressIPv6 = "" ∧
    s.Protocols = (if sf.Proto ≠ 0 then v.Protocols &&& sf.Proto else v.Protocols) ∧
    s.Replies = (if sf.Replies ≠ 0 then v.Replies &&& sf.Replies else v.Replies) ∧
    s.Address =
      (if sf.Replies ≠ 0 ∧ s.Replies = IPv4 ∧ v.AddressIPv4 ≠ "" then v.AddressIPv4
       else if sf.Replies ≠ 0 ∧ s.Replies = IPv6 ∧ v.AddressIPv6 ≠ "" then v.AddressIPv6
       else v.Address) := by
  unfold narrowEntry at h
  split_ifs at h <;> simp only [Option.some.injEq] at h <;> subst h <;>
    split_ifs <;> simp_all [IPv4, IPv6]

/-! ## Bit arithmetic used by the filter -/

theorem bitSubset_refl (a : Nat) : BitSubset a a := by
  simp [BitSubset]

theorem bitSubset_and_left (a b : Nat) : BitSubset (a &&& b) a := by
  unfold BitSubset
  apply Nat.eq_of_testBit_eq
  intro i
  simp only [Nat.testBit_and]
  cases a.testBit i <;> cases b.testBit i <;> rfl

theorem and_one_of_ne_zero (a : Nat) (h : a &&& 1 ≠ 0) : a &&& 1 = 1 := by
  rw [Nat.and_one_is_mod] at *
  omega

theorem and_two_of_ne_zero (a : Nat) (h : a &&& 2 ≠ 0) : a &&& 2 = 2 := by
  apply Nat.eq_of_testBit_eq
  intro i
  have hne : ∃ j, (a &&& 2).testBit j = true := by
    by_contra hcon
    apply h
    apply Nat.eq_of_testBit_eq
    intro j
    simp only [Nat.zero_testBit]
    cases hj : (a &&& 2).testBit j
    · rfl
    · exact absurd ⟨j, hj⟩ hcon
  obtain ⟨j, hj⟩ := hne
  have h2 : ∀ n, Nat.testBit 2 n = decide (n = 1) := by
    intro n
    have := @Nat.testBit_two_pow 1 n
    simpa [eq_comm] using this
  simp only [Nat.testBit_and, h2] at hj ⊢
  by_cases hi : i = 1
  · subst hi
    by_cases hj1 : j = 1
    · subst hj1; simpa using hj
    · simp [hj1] at hj
  · simp [hi]

/-! ## The log call and the loop of `getValidSources` -/

theorem getStringFromBitmaskMap_returns (m : NameTable) (p fuel : Nat) (hp : p < 2 ^ 63)
    (hfuel : 64 ≤ fuel) : ∃ r, getStringFromBitmaskMap fuel m p = some r := by
  have hn := size_le_63 p hp
  unfold getStringFromBitmaskMap
  rw [bitmaskLoop_eq m p hp fuel (0, "") (Nat.zero_le _)]
  simp only [Nat.sub_zero]
  rw [if_pos (by omega)]
  exact ⟨_, rfl⟩

theorem bitmaskLoop_never_ends (m : NameTable) (p : Nat) (hp : 2 ^ 63 ≤ p) (fuel : Nat)
    (st : Nat × String) : bitmaskLoop m p fuel st = none := by
  induction fuel generalizing st with
  | zero => rfl
  | succ fuel ih =>
    unfold bitmaskLoop
    have hcond : shl1 st.1 ≤ p := by
      unfold shl1
      split_ifs with h
      · have : 2 ^ st.1 ≤ 2 ^ 63 := Nat.pow_le_pow_right (by decide) (by omega)
        omega
      · exact Nat.zero_le _
    rw [if_pos hcond]
    exact ih _

theorem getStringFromBitmaskMap_never_returns (m : NameTable) (p : Nat) (hp : 2 ^ 63 ≤ p)
    (fuel : Nat) : getStringFromBitmaskMap fuel m p = none :=
  bitmaskLoop_never_ends m p hp fuel (0, "")

theorem printlnSource_returns (fuel : Nat) (s : Source) (hfuel : 64 ≤ fuel)
    (hID : s.ID < 2 ^ 63) (hP : s.Protocols < 2 ^ 63) (hR : s.Replies < 2 ^ 63) :
    printlnSource fuel s = some () := by
  obtain ⟨a, ha⟩ := getStringFromBitmaskMap_returns sourceIDNames s.ID fuel hID hfuel
  obtain ⟨b, hb⟩ := getStringFromBitmaskMap_returns protocolNames s.Protocols fuel hP hfuel
  obtain ⟨c, hc⟩ := getStringFromBitmaskMap_returns familyNames s.Replies fuel hR hfuel
  simp [printlnSource, SourceID.String, Protocol.String, FamilyReply.String, ha, hb, hc]

theorem printlnSource_never_returns (s : Source)
    (h : 2 ^ 63 ≤ s.ID ∨ 2 ^ 63 ≤ s.Protocols ∨ 2 ^ 63 ≤ s.Replies) (fuel : Nat) :
    printlnSource fuel s = none := by
  unfold printlnSource SourceID.String Protocol.String FamilyReply.String
  rcases h with h | h | h
  · rw [getStringFromBitmaskMap_never_returns sourceIDNames s.ID h fuel]
  · rw [getStringFromBitmaskMap_never_returns protocolNames s.Protocols h fuel]
    cases getStringFromBitmaskMap fuel sourceIDNames s.ID <;> rfl
  · rw [getStringFromBitmaskMap_never_returns familyNames s.Replies h fuel]
    cases getStringFromBitmaskMap fuel sourceIDNames s.ID with
    | none => rfl
    | some a => cases getStringFromBitmaskMap fuel protocolNames s.Protocols <;> rfl

theorem narrowEntry_le (sf : SourceFilter) (v s : Source) (h : narrowEntry sf v = some s) :
    s.ID = v.ID ∧ s.Protocols ≤ v.Protocols ∧ s.Replies ≤ v.Replies := by
  obtain ⟨fID, -, -, -, fP, fR, -⟩ := narrowEntry_fields sf v s h
  refine ⟨fID, ?_, ?_⟩
  · rw [fP]
    split_ifs
    · exact Nat.and_le_left
    · exact le_refl _
  · rw [fR]
    split_ifs
    · exact Nat.and_le_left
    · exact le_refl _

theorem rangeValidSources_get (fuel : Nat) (sf : SourceFilter) (L : SourceMap)
    (hL : KeysNodup L) (acc m : SourceMap)
    (h : rangeValidSources fuel sf L acc = some m) (k : SourceID) :
    mapGet m k =
      match (mapGet L k).bind (narrowEntry sf) with
      | some s => some s
      | none => mapGet acc k := by
  induction L generalizing acc with
  | nil =>
    simp only [rangeValidSources, Option.some.injEq] at h
    subst h
    simp [mapGet]
  | cons hd tl ih =>
    obtain ⟨k', v'⟩ := hd
    have hcons : k' ∉ mapKeys tl ∧ KeysNodup tl := by
      simpa [KeysNodup, mapKeys] using hL
    unfold rangeValidSources at h
    cases hstep : validSourcesStep fuel sf acc (k', v') with
    | none => simp [hstep] at h
    | some acc' =>
      rw [hstep] at h
      simp only at h
      rw [ih hcons.2 acc' h]
      unfold validSourcesStep at hstep
      simp only at hstep
      by_cases hk : k' = k
      · subst hk
        have hnone : mapGet tl k' = none := (mapGet_eq_none_iff tl k').2 hcons.1
        cases hn : narrowEntry sf v' with
        | none =>
          simp only [hn, Option.some.injEq] at hstep
          subst hstep
          simp [hnone, mapGet, hn]
        | some s =>
          rw [hn] at hstep
          cases hp : printlnSource fuel s with
          | none => simp [hp] at hstep
          | some u =>
            simp only [hp, Option.some.injEq] at hstep
            subst hstep
            simp [hnone, mapGet, hn, mapGet_mapSet_same]
      · cases hn : narrowEntry sf v' with
        | none =>
          simp only [hn, Option.some.injEq] at hstep
          subst hstep
          simp [mapGet, hk]
        | some s =>
          rw [hn] at hstep
          cases hp : printlnSource fuel s with
          | none => simp [hp] at hstep
          | some u =>
            simp only [hp, Option.some.injEq] at hstep
            subst hstep
            simp [mapGet, hk, mapGet_mapSet_ne _ _ _ _ hk]

theorem validSourcesStep_keysNodup (fuel : Nat) (sf : SourceFilter) (acc acc' : SourceMap)
    (kv : SourceID × Source) (hacc : KeysNodup acc)
    (h : validSourcesStep fuel sf acc kv = some acc') : KeysNodup acc' := by
  unfold validSourcesStep at h
  cases hn : narrowEntry sf kv.2 with
  | none =>
    simp only [hn, Option.some.injEq] at h
    subst h
    exact hacc
  | some s =>
    rw [hn] at h
    cases hp : printlnSource fuel s with
    | none => simp [hp] at h
    | some u =>
      simp only [hp, Option.some.injEq] at h
      subst h
      exact keysNodup_mapSet _ _ _ hacc

theorem rangeValidSources_keysNodup (fuel : Nat) (sf : SourceFilter) (L acc m : SourceMap)
    (hacc : KeysNodup acc) (h : rangeValidSources fuel sf L acc = some m) : KeysNodup m := by
  induction L generalizing acc with
  | nil =>
    simp only [rangeValidSources, Option.some.injEq] at h
    subst h
    exact hacc
  | cons hd tl ih =>
    unfold rangeValidSources at h
    cases hstep : validSourcesStep fuel sf acc hd with
    | none => simp [hstep] at h
    | some acc' =>
      rw [hstep] at h
      exact ih acc' (validSourcesStep_keysNodup fuel sf acc acc' hd hacc hstep) h

theorem rangeValidSources_printed (fuel : Nat) (sf : SourceFilter) (L acc m : SourceMap)
    (h : rangeValidSources fuel sf L acc = some m) :
    ∀ kv ∈ L, ∀ s, narrowEntry sf kv.2 = some s → printlnSource fuel s = some () := by
  induction L generalizing acc with
  | nil => intro kv hkv; simp at hkv
  | cons hd tl ih =>
    unfold rangeValidSources at h
    cases hstep : validSourcesStep fuel sf acc hd with
    | none => simp [hstep] at h
    | some acc' =>
      rw [hstep] at h
      intro kv hkv s hs
      rcases List.mem_cons.1 hkv with heq | hmem
      · subst heq
        unfold validSourcesStep at hstep
        rw [hs] at hstep
        cases hp : printlnSource fuel s with
        | none => simp [hp] at hstep
        | some u => rfl
      · exact ih acc' h kv hmem s hs

theorem rangeValidSources_returns (fuel : Nat) (sf : SourceFilter) (L acc : SourceMap)
    (hp : ∀ kv ∈ L, ∀ s, narrowEntry sf kv.2 = some s → printlnSource fuel s = some ()) :
    ∃ m, rangeValidSources fuel sf L acc = some m := by
  induction L generalizing acc with
  | nil => exact ⟨acc, rfl⟩
  | cons hd tl ih =>
    unfold rangeValidSources
    have htl : ∀ kv ∈ tl, ∀ s, narrowEntry sf kv.2 = some s → printlnSource fuel s = some () :=
      fun kv hkv => hp kv (List.mem_cons_of_mem _ hkv)
    cases hn : narrowEntry sf hd.2 with
    | none =>
      simp only [validSourcesStep, hn]
      exact ih acc htl
    | some s =>
      have := hp hd (List.mem_cons_self _ _) s hn
      simp only [validSourcesStep, hn, this]
      exact ih _ htl

/-- The narrowed map, read key by key: when `getValidSources` returns, the entry under `k`
is the narrowing of the catalog entry under `k`. -/
theorem getValidSources_get (fuel : Nat) (sf : SourceFilter) (L : SourceMap)
    (hL : KeysNodup L) (m : SourceMap) (h : getValidSources fuel (some sf) L = some m)
    (k : SourceID) : mapGet m k = (mapGet L k).bind (narrowEntry sf) := by
  simp only [getValidSources] at h
  rw [rangeValidSources_get fuel sf L hL [] m h k]
  cases (mapGet L k).bind (narrowEntry sf) <;> simp [mapGet]

theorem getValidSources_keysNodup (fuel : Nat) (sf : Option SourceFilter) (L : SourceMap)
    (hL : KeysNodup L) (m : SourceMap) (h : getValidSources fuel sf L = some m) :
    KeysNodup m := by
  cases sf with
  | none =>
    simp only [getValidSources, Option.some.injEq] at h
    subst h
    exact hL
  | some f =>
    exact rangeValidSources_keysNodup fuel f L [] m (by simp [KeysNodup, mapKeys]) h

theorem getValidSources_returns (fuel : Nat) (sf : Option SourceFilter) (L : SourceMap)
    (hfit : CatalogFits L) (hfuel : 64 ≤ fuel) :
    ∃ m, getValidSources fuel sf L = some m := by
  cases sf with
  | none => exact ⟨L, rfl⟩
  | some f =>
    apply rangeValidSources_returns
    intro kv hkv s hs
    obtain ⟨h1, h2, h3⟩ := hfit kv hkv
    obtain ⟨e1, e2, e3⟩ := narrowEntry_le f kv.2 s hs
    exact printlnSource_returns fuel s hfuel (by rw [e1]; exact h1)
      (lt_of_le_of_lt e2 h2) (lt_of_le_of_lt e3 h3)

theorem getValidSources_never_returns (sf : SourceFilter) (L : SourceMap)
    (kv : SourceID × Source) (hkv : kv ∈ L) (s : Source) (hs : narrowEntry sf kv.2 = some s)
    (hbig : 2 ^ 63 ≤ s.ID ∨ 2 ^ 63 ≤ s.Protocols ∨ 2 ^ 63 ≤ s.Replies) (fuel : Nat) :
    getValidSources fuel (some sf) L = none := by
  cases h : getValidSources fuel (some sf) L with
  | none => rfl
  | some m =>
    have hp := rangeValidSources_printed fuel sf L [] m h kv hkv s hs
    rw [printlnSource_never_returns s hbig fuel] at hp
    exact absurd hp (by simp)

theorem mapGet_mem (m : SourceMap) (k : SourceID) (v : Source) (h : mapGet m k = some v) :
    (k, v) ∈ m := by
  induction m with
  | nil => simp [mapGet] at h
  | cons hd tl ih =>
    obtain ⟨k', v'⟩ := hd
    by_cases hk : k' = k
    · subst hk
      simp [mapGet] at h
      simp [h]
    · simp [mapGet, hk] at h
      exact List.mem_cons_of_mem _ (ih h)

/-! ## One attempt -/

theorem getHTTPBody_trace (net : Net) (url : String) (tr : List Call) :
    (getHTTPBody net url tr).2 = tr ++ [Call.httpGet url] := by
  unfold getHTTPBody
  cases net.httpGet tr url with
  | error e => rfl
  | ok resp =>
    cases hr : resp.ReadAll <;> simp [hr]

theorem stringToNetIP_snd_false (net : Net) (ipstring : String) (err : GoError)
    (h : (stringToNetIP net ipstring err).2 = false) :
    stringToNetIP net ipstring err = (none, false) := by
  unfold stringToNetIP at h ⊢
  cases err with
  | some e => simp
  | none =>
    cases hp : net.ParseIP ipstring with
    | none => simp
    | some ip => simp [hp] at h

theorem http_attempt_fails_iff (net : Net) (url : String) (tr : List Call) :
    (stringToNetIP net (getHTTPBody net url tr).1.1 (getHTTPBody net url tr).1.2).2 = false ↔
      HTTPAttemptFails net tr url := by
  unfold HTTPAttemptFails getHTTPBody stringToNetIP
  cases hg : net.httpGet tr url with
  | error e => simp
  | ok resp =>
    cases hr : resp.ReadAll with
    | error e => simp [hr]
    | ok body =>
      cases hp : net.ParseIP (net.TrimSpace body) <;> simp [hr, hp]

theorem http_attempt_success (net : Net) (url : String) (tr : List Call) (resp : Response)
    (body : String) (ip : List Nat)
    (hget : net.httpGet tr url = .ok resp) (hread : resp.ReadAll = .ok body)
    (hparse : net.ParseIP (net.TrimSpace body) = some ip) :
    stringToNetIP net (getHTTPBody net url tr).1.1 (getHTTPBody net url tr).1.2
      = (some ip, true) := by
  unfold getHTTPBody stringToNetIP
  simp [hget, hread, hparse]

theorem getDNSQuery_trace_extends (net : Net) (addr server : String) (tr : List Call) :
    ∃ calls, (getDNSQuery net addr server tr).2 = tr ++ calls := by
  unfold getDNSQuery
  cases dnsServerport net server tr with
  | error p => exact ⟨_, rfl⟩
  | ok sp =>
    refine ⟨[Call.lookupHost server, Call.exchange (net.Fqdn addr) TypeANY sp], ?_⟩
    simp only []
    split <;> (try split) <;> simp

theorem fetchFromDNS_not_found_iff (net : Net) (s : Source) (tr : List Call) :
    (∃ ip, (fetchFromDNS net s tr).1 = .ok (ip, false)) ↔
      (s.Protocols &&& DNS ≠ 0 ∨ s.Protocols &&& DNS_TXT ≠ 0 →
        DNSAttemptFails net tr s.Address s.Server) := by
  unfold fetchFromDNS DNSAttemptFails
  by_cases hb : s.Protocols &&& DNS ≠ 0 ∨ s.Protocols &&& DNS_TXT ≠ 0
  · rw [if_pos hb]
    rcases hq : getDNSQuery net s.Address s.Server tr with ⟨r, tr'⟩
    cases r with
    | error p => simp [hb]
    | ok v =>
      obtain ⟨ip, err⟩ := v
      cases err with
      | none => simp [hb]
      | some e => simp [hb]
  · rw [if_neg hb]
    simp [hb]

theorem fetchFromDNS_nil_of_not_found (net : Net) (s : Source) (tr : List Call)
    (ip : NetIP) (h : (fetchFromDNS net s tr).1 = .ok (ip, false)) : ip = none := by
  unfold fetchFromDNS at h
  split_ifs at h with hb
  · rcases hq : getDNSQuery net s.Address s.Server tr with ⟨r, tr'⟩
    rw [hq] at h
    cases r with
    | error p => simp at h
    | ok v =>
      obtain ⟨ip', err⟩ := v
      cases err with
      | none => simp at h
      | some e =>
        simp at h
        exact h.symm
  · simp at h
    exact h.symm

theorem fetchFromHTTP_not_found_iff (net : Net) (s : Source) (tr : List Call) :
    (∃ ip, (fetchFromHTTP net s tr).1 = .ok (ip, false)) ↔
      (s.Protocols &&& HTTP ≠ 0 → HTTPAttemptFails net tr ("http://" ++ s.Address)) ∧
      (s.Protocols &&& DNS ≠ 0 ∨ s.Protocols &&& DNS_TXT ≠ 0 →
        DNSAttemptFails net
          (tr ++ if s.Protocols &&& HTTP ≠ 0 then [Call.httpGet ("http://" ++ s.Address)]
                 else [])
          s.Address s.Server) := by
  unfold fetchFromHTTP
  by_cases hb : s.Protocols &&& HTTP ≠ 0
  · simp only [if_pos hb, getHTTPBody_trace]
    have hiff := http_attempt_fails_iff net ("http://" ++ s.Address) tr
    cases hres : (stringToNetIP net (getHTTPBody net ("http://" ++ s.Address) tr).1.1
        (getHTTPBody net ("http://" ++ s.Address) tr).1.2).2 with
    | true =>
      rw [hres] at hiff
      have hnf : ¬ HTTPAttemptFails net tr ("http://" ++ s.Address) := by
        intro h; exact absurd (hiff.2 h) (by decide)
      simp [hnf, hb]
    | false =>
      rw [hres] at hiff
      have hf : HTTPAttemptFails net tr ("http://" ++ s.Address) := hiff.1 rfl
      simp only [Bool.false_eq_true, if_false, hf, implies_true, true_and]
      exact fetchFromDNS_not_found_iff net s _
  · simp only [if_neg hb, List.append_nil]
    rw [fetchFromDNS_not_found_iff]
    simp [hb]

theorem fetchFromHTTP_nil_of_not_found (net : Net) (s : Source) (tr : List Call)
    (ip : NetIP) (h : (fetchFromHTTP net s tr).1 = .ok (ip, false)) : ip = none := by
  unfold fetchFromHTTP at h
  by_cases hb : s.Protocols &&& HTTP ≠ 0
  · simp only [if_pos hb] at h
    cases hres : (stringToNetIP net (getHTTPBody net ("http://" ++ s.Address) tr).1.1
        (getHTTPBody net ("http://" ++ s.Address) tr).1.2).2 with
    | true => simp [hres] at h
    | false =>
      simp only [hres, Bool.false_eq_true, if_false] at h
      exact fetchFromDNS_nil_of_not_found net s _ ip h
  · simp only [if_neg hb] at h
    exact fetchFromDNS_nil_of_not_found net s _ ip h

/-! ## The filter engine: claims -/

/-- C1. With a nil filter `getValidSources` returns, whatever the fuel, and hands back the
catalog it was given: the very same map, hence the same keys, and under every key a
descriptor that agrees with the original in each of its seven fields. -/
theorem getValidSources_nil_filter (fuel : Nat) (L : SourceMap) :
    getValidSources fuel none L = some L ∧
    ∀ m, getValidSources fuel none L = some m →
      m = L ∧
      mapKeys m = mapKeys L ∧
      ∀ k v, mapGet L k = some v →
        ∃ s, mapGet m k = some s ∧
          s.ID = v.ID ∧ s.Address = v.Address ∧ s.AddressIPv4 = v.AddressIPv4 ∧
          s.AddressIPv6 = v.AddressIPv6 ∧ s.Server = v.Server ∧
          s.Protocols = v.Protocols ∧ s.Replies = v.Replies := by
  refine ⟨rfl, ?_⟩
  intro m hm
  simp only [getValidSources, Option.some.injEq] at hm
  subst hm
  refine ⟨rfl, rfl, ?_⟩
  intro k v hv
  exact ⟨v, hv, rfl, rfl, rfl, rfl, rfl, rfl, rfl⟩

theorem getValidSources_nil_filter_witness :
    getValidSources 0 none sourcesList = some sourcesList ∧
    mapKeys sourcesList = [IFCONFIGME, ICANHAZIP, IPIFY, GOOGLEDNSTXT, OPENDNS] ∧
    ∃ s, mapGet sourcesList IPIFY = some s ∧
      s.ID = IPIFY ∧ s.Address = "api.ipify.org" ∧ s.AddressIPv4 = "api.ipify.org" ∧
      s.AddressIPv6 = "api64.ipify.org" ∧ s.Server = "" ∧
      s.Protocols = HTTP ||| HTTPS ∧ s.Replies = IPv4 ||| IPv6 :=
  ⟨(getValidSources_nil_filter 0 sourcesList).1, by decide,
    ((getValidSources_nil_filter 0 sourcesList).2 sourcesList rfl).2.2 IPIFY
      { ID := IPIFY, Address := "api.ipify.org", AddressIPv4 := "api.ipify.org",
        AddressIPv6 := "api64.ipify.org", Protocols := HTTP ||| HTTPS,
        Replies := IPv4 ||| IPv6 }
      (by decide)⟩

/-- C2. On a catalog whose entries all have non-zero `Protocols`, `Replies` and `ID`,
whenever `getValidSources` returns, for a nil filter or any other, every entry of the map
it returns sits under a key `k` of the catalog and has `Protocols`, `Replies` and `ID` that
are non-zero and bitwise included in those of the catalog entry under `k`.  It does return,
with fuel 64 or more, on every catalog whose values have bit 63 clear. -/
theorem getValidSources_nonempty_subset (fuel : Nat) (L : SourceMap) (hL : KeysNodup L)
    (hnz : ∀ kv ∈ L, kv.2.Protocols ≠ 0 ∧ kv.2.Replies ≠ 0 ∧ kv.2.ID ≠ 0)
    (sf : Option SourceFilter) :
    (∀ m, getValidSources fuel sf L = some m →
      ∀ k s, mapGet m k = some s →
        ∃ v, mapGet L k = some v ∧
          s.Protocols ≠ 0 ∧ BitSubset s.Protocols v.Protocols ∧
          s.Replies ≠ 0 ∧ BitSubset s.Replies v.Replies ∧
          s.ID ≠ 0 ∧ BitSubset s.ID v.ID) ∧
    (CatalogFits L → 64 ≤ fuel → ∃ m, getValidSources fuel sf L = some m) := by
  refine ⟨?_, fun hfit hfuel => getValidSources_returns fuel sf L hfit hfuel⟩
  intro m hm k s hs
  have hnz' : ∀ v, mapGet L k = some v → v.Protocols ≠ 0 ∧ v.Replies ≠ 0 ∧ v.ID ≠ 0 := by
    intro v hv
    exact hnz (k, v) (mapGet_mem L k v hv)
  cases sf with
  | none =>
    simp only [getValidSources, Option.some.injEq] at hm
    subst hm
    refine ⟨s, hs, ?_⟩
    obtain ⟨h1, h2, h3⟩ := hnz' s hs
    exact ⟨h1, bitSubset_refl _, h2, bitSubset_refl _, h3, bitSubset_refl _⟩
  | some F =>
    rw [getValidSources_get fuel F L hL m hm k] at hs
    cases hv : mapGet L k with
    | none => simp [hv] at hs
    | some v =>
      rw [hv] at hs
      simp only [Option.bind_eq_bind, Option.some_bind] at hs
      obtain ⟨h1, h2, h3⟩ := hnz' v hv
      obtain ⟨hP, hR, hI⟩ := (narrowEntry_isSome_iff F v).1 ⟨s, hs⟩
      obtain ⟨fID, -, -, -, fP, fR, -⟩ := narrowEntry_fields F v s hs
      refine ⟨v, rfl, ?_, ?_, ?_, ?_, ?_, ?_⟩
      · rw [fP]; split_ifs with hz
        · exact hP.resolve_left hz
        · exact h1
      · rw [fP]; split_ifs
        · exact bitSubset_and_left _ _
        · exact bitSubset_refl _
      · rw [fR]; split_ifs with hz
        · exact hR.resolve_left hz
        · exact h2
      · rw [fR]; split_ifs
        · exact bitSubset_and_left _ _
        · exact bitSubset_refl _
      · rw [fID]; exact h3
      · rw [fID]; exact bitSubset_refl _

theorem getValidSources_nonempty_subset_witness :
    KeysNodup sourcesList ∧
    (∀ kv ∈ sourcesList, kv.2.Protocols ≠ 0 ∧ kv.2.Replies ≠ 0 ∧ kv.2.ID ≠ 0) ∧
    CatalogFits sourcesList ∧
    (getValidSources 64 (some { Proto := HTTPS, Replies := IPv4 }) sourcesList).bind
        (fun m => mapGet m ICANHAZIP)
      = some { ID := 1, Address := "ipv4.icanhazip.com", Protocols := 2, Replies := 1 } ∧
    (∀ m, getValidSources 64 (some { Proto := HTTPS, Replies := IPv4 }) sourcesList = some m →
      ∀ k s, mapGet m k = some s →
        ∃ v, mapGet sourcesList k = some v ∧
          s.Protocols ≠ 0 ∧ BitSubset s.Protocols v.Protocols ∧
          s.Replies ≠ 0 ∧ BitSubset s.Replies v.Replies ∧
          s.ID ≠ 0 ∧ BitSubset s.ID v.ID) ∧
    ∃ m, getValidSources 64 (some { Proto := HTTPS, Replies := IPv4 }) sourcesList = some m :=
  ⟨by decide, by decide, by decide, by decide,
    (getValidSources_nonempty_subset 64 sourcesList (by decide) (by decide)
      (some { Proto := HTTPS, Replies := IPv4 })).1,
    (getValidSources_nonempty_subset 64 sourcesList (by decide) (by decide)
      (some { Proto := HTTPS, Replies := IPv4 })).2 (by decide) (by decide)⟩

/-- Counterexample to C3 as stated.  The catalog has one entry, under the key with only
bit 63 set and with that value as its `ID`; the filter restricts the protocol to HTTPS,
which the entry offers.  The key is a key of the catalog and its entry passes all three
guards, yet it is a key of no result: the log call on the kept entry runs `String` on the
`ID`, that loop never ends, and `getValidSources` returns nothing, whatever the fuel. -/
theorem minInt_key_is_never_returned :
    (∃ v, mapGet minIntCatalog (2 ^ 63) = some v ∧
      (HTTPS = 0 ∨ v.Protocols &&& HTTPS ≠ 0) ∧
      ((0 : Nat) = 0 ∨ v.Replies &&& 0 ≠ 0) ∧
      ((0 : Nat) = 0 ∨ v.ID &&& 0 ≠ 0)) ∧
    (∀ fuel, getValidSources fuel (some { Proto := HTTPS }) minIntCatalog = none) ∧
    ¬ (∃ fuel m, getValidSources fuel (some { Proto := HTTPS }) minIntCatalog = some m ∧
        2 ^ 63 ∈ mapKeys m) := by
  have hnever : ∀ fuel, getValidSources fuel (some { Proto := HTTPS }) minIntCatalog = none :=
    getValidSources_never_returns { Proto := HTTPS } minIntCatalog
      (2 ^ 63, { ID := 2 ^ 63, Address := "ip.example.org", Protocols := HTTPS,
                 Replies := IPv4 })
      (by decide)
      { ID := 2 ^ 63, Address := "ip.example.org", Protocols := HTTPS, Replies := IPv4 }
      (by decide) (Or.inl (le_refl _))
  refine ⟨⟨{ ID := 2 ^ 63, Address := "ip.example.org", Protocols := HTTPS, Replies := IPv4 },
    by decide, by decide, by decide, by decide⟩, hnever, ?_⟩
  rintro ⟨fuel, m, hm, -⟩
  rw [hnever fuel] at hm
  exact absurd hm (by simp)

/-- C3, amended.  For a non-nil filter `F`, whenever `getValidSources` returns, a key `k` is
a key of the map it returns exactly when it is a key of the catalog and its entry passes
all three guards: on each axis either `F` is zero or the entry shares a bit with `F`.  In
particular an entry whose `Protocols` share no bit with a non-zero `F.Proto` is absent.
The function does return, with fuel 64 or more, on every catalog whose values have bit 63
clear. -/
theorem getValidSources_key_iff (fuel : Nat) (L : SourceMap) (hL : KeysNodup L)
    (F : SourceFilter) (k : SourceID) :
    (∀ m, getValidSources fuel (some F) L = some m →
      (k ∈ mapKeys m ↔
        ∃ v, mapGet L k = some v ∧
          (F.Proto = 0 ∨ v.Protocols &&& F.Proto ≠ 0) ∧
          (F.Replies = 0 ∨ v.Replies &&& F.Replies ≠ 0) ∧
          (F.ID = 0 ∨ v.ID &&& F.ID ≠ 0)) ∧
      (∀ v, mapGet L k = some v → F.Proto ≠ 0 → v.Protocols &&& F.Proto = 0 →
        k ∉ mapKeys m ∧ mapGet m k = none)) ∧
    (CatalogFits L → 64 ≤ fuel → ∃ m, getValidSources fuel (some F) L = some m) := by
  refine ⟨?_, fun hfit hfuel => getValidSources_returns fuel (some F) L hfit hfuel⟩
  intro m hm
  have hiff : k ∈ mapKeys m ↔ ∃ v, mapGet L k = some v ∧ Keeps F v := by
    rw [mem_mapKeys_iff, getValidSources_get fuel F L hL m hm k]
    cases hv : mapGet L k with
    | none => simp
    | some v =>
      simp only [Option.bind_eq_bind, Option.some_bind, Option.some.injEq, exists_eq_left']
      exact narrowEntry_isSome_iff F v
  refine ⟨hiff, ?_⟩
  intro v hv hF hand
  have hnot : k ∉ mapKeys m := by
    rw [hiff]
    rintro ⟨v', hv', hk, -, -⟩
    rw [hv] at hv'
    cases hv'
    exact hk.elim hF (fun h => h hand)
  exact ⟨hnot, (mapGet_eq_none_iff _ _).2 hnot⟩

theorem getValidSources_key_iff_witness :
    KeysNodup sourcesList ∧ CatalogFits sourcesList ∧
    (getValidSources 64 (some { Proto := HTTP ||| HTTPS }) sourcesList).map mapKeys
      = some [IFCONFIGME, ICANHAZIP, IPIFY] ∧
    (∀ m, getValidSources 64 (some { Proto := HTTP ||| HTTPS }) sourcesList = some m →
      (OPENDNS ∈ mapKeys m ↔
        ∃ v, mapGet sourcesList OPENDNS = some v ∧
          ((HTTP ||| HTTPS) = 0 ∨ v.Protocols &&& (HTTP ||| HTTPS) ≠ 0) ∧
          ((0 : Nat) = 0 ∨ v.Replies &&& 0 ≠ 0) ∧
          ((0 : Nat) = 0 ∨ v.ID &&& 0 ≠ 0)) ∧
      (∀ v, mapGet sourcesList OPENDNS = some v → (HTTP ||| HTTPS) ≠ 0 →
        v.Protocols &&& (HTTP ||| HTTPS) = 0 →
        OPENDNS ∉ mapKeys m ∧ mapGet m OPENDNS = none)) ∧
    ∃ m, getValidSources 64 (some { Proto := HTTP ||| HTTPS }) sourcesList = some m :=
  ⟨by decide, by decide, by decide,
    (getValidSources_key_iff 64 sourcesList (by decide) { Proto := HTTP ||| HTTPS }
      OPENDNS).1,
    (getValidSources_key_iff 64 sourcesList (by decide) { Proto := HTTP ||| HTTPS }
      OPENDNS).2 (by decide) (by decide)⟩

/-- Counterexample to C4 as stated.  In the static catalog IPIFY has a non-empty
`AddressIPv4` that is the same text as its `Address`; a filter with `Replies = IPv4` keeps
it, and the narrowed `Address` is then equal to `v.Address`, so "equal to `v.AddressIPv4`
and not to `v.Address`" fails. -/
theorem ipify_ipv4_override_is_default :
    (mapGet sourcesList IPIFY).map Source.AddressIPv4 = some "api.ipify.org" ∧
    (mapGet sourcesList IPIFY).map Source.Address = some "api.ipify.org" ∧
    ((getValidSources 64 (some { Replies := IPv4 }) sourcesList).bind
        (fun m => mapGet m IPIFY)).map Source.Address = some "api.ipify.org" ∧
    ¬ (∀ m v s, getValidSources 64 (some { Replies := IPv4 }) sourcesList = some m →
        mapGet sourcesList IPIFY = some v → v.AddressIPv4 ≠ "" →
        mapGet m IPIFY = some s →
        s.Address = v.AddressIPv4 ∧ s.Address ≠ v.Address) := by
  refine ⟨by decide, by decide, by decide, ?_⟩
  intro h
  obtain ⟨m, hm⟩ : ∃ m, getValidSources 64 (some { Replies := IPv4 }) sourcesList = some m :=
    getValidSources_returns 64 _ sourcesList (by decide) (by decide)
  have hs : mapGet m IPIFY = some
      { ID := IPIFY, Address := "api.ipify.org", Protocols := HTTP ||| HTTPS,
        Replies := IPv4 } := by
    rw [getValidSources_get 64 _ sourcesList (by decide) m hm IPIFY]
    decide
  have h' := h m
    { ID := IPIFY, Address := "api.ipify.org", AddressIPv4 := "api.ipify.org",
      AddressIPv6 := "api64.ipify.org", Protocols := HTTP ||| HTTPS,
      Replies := IPv4 ||| IPv6 }
    { ID := IPIFY, Address := "api.ipify.org", Protocols := HTTP ||| HTTPS, Replies := IPv4 }
    hm (by decide) (by decide) hs
  exact h'.2 rfl

/-- C4, amended.  When a filter with `Replies = IPv4` keeps an entry `v` whose `AddressIPv4`
is non-empty, the narrowed `Address` is `v.AddressIPv4`; it differs from `v.Address`
whenever the two texts differ.  The same holds for `Replies = IPv6` and `AddressIPv6`.
This is stated of every map `getValidSources` returns; it does return, with fuel 64 or
more, on every catalog whose values have bit 63 clear. -/
theorem getValidSources_family_override (fuel : Nat) (L : SourceMap) (hL : KeysNodup L)
    (F : SourceFilter) (k : SourceID) (v : Source) (hv : mapGet L k = some v) :
    (∀ m s, getValidSources fuel (some F) L = some m → mapGet m k = some s →
      (F.Replies = IPv4 → v.AddressIPv4 ≠ "" →
        s.Address = v.AddressIPv4 ∧ (v.AddressIPv4 ≠ v.Address → s.Address ≠ v.Address)) ∧
      (F.Replies = IPv6 → v.AddressIPv6 ≠ "" →
        s.Address = v.AddressIPv6 ∧ (v.AddressIPv6 ≠ v.Address → s.Address ≠ v.Address))) ∧
    (CatalogFits L → 64 ≤ fuel → ∃ m, getValidSources fuel (some F) L = some m) := by
  refine ⟨?_, fun hfit hfuel => getValidSources_returns fuel (some F) L hfit hfuel⟩
  intro m s hm hs
  rw [getValidSources_get fuel F L hL m hm k, hv] at hs
  simp only [Option.bind_eq_bind, Option.some_bind] at hs
  obtain ⟨-, hR, -⟩ := (narrowEntry_isSome_iff F v).1 ⟨s, hs⟩
  obtain ⟨-, -, -, -, -, fR, fA⟩ := narrowEntry_fields F v s hs
  constructor
  · intro hF h4
    have hFne : F.Replies ≠ 0 := by rw [hF]; decide
    have hand : v.Replies &&& 1 ≠ 0 := by
      have := hR.resolve_left hFne
      rwa [hF] at this
    have hsR : s.Replies = IPv4 := by
      rw [fR, if_pos hFne, hF]
      exact and_one_of_ne_zero _ hand
    have hA : s.Address = v.AddressIPv4 := by
      rw [fA, if_pos ⟨hFne, hsR, h4⟩]
    exact ⟨hA, fun hne => by rw [hA]; exact hne⟩
  · intro hF h6
    have hFne : F.Replies ≠ 0 := by rw [hF]; decide
    have hand : v.Replies &&& 2 ≠ 0 := by
      have := hR.resolve_left hFne
      rwa [hF] at this
    have hsR : s.Replies = IPv6 := by
      rw [fR, if_pos hFne, hF]
      exact and_two_of_ne_zero _ hand
    have hnot4 : ¬ (F.Replies ≠ 0 ∧ s.Replies = IPv4 ∧ v.AddressIPv4 ≠ "") := by
      rintro ⟨-, h, -⟩
      rw [hsR] at h
      exact absurd h (by decide)
    have hA : s.Address = v.AddressIPv6 := by
      rw [fA, if_neg hnot4, if_pos ⟨hFne, hsR, h6⟩]
    exact ⟨hA, fun hne => by rw [hA]; exact hne⟩

theorem getValidSources_family_override_witness :
    KeysNodup sourcesList ∧ CatalogFits sourcesList ∧
    mapGet sourcesList ICANHAZIP = some
      { ID := ICANHAZIP, Address := "icanhazip.com", AddressIPv4 := "ipv4.icanhazip.com",
        AddressIPv6 := "ipv6.icanhazip.com", Protocols := HTTP ||| HTTPS,
        Replies := IPv4 ||| IPv6 } ∧
    ((getValidSources 64 (some { Replies := IPv4 }) sourcesList).bind
        (fun m => mapGet m ICANHAZIP)).map Source.Address = some "ipv4.icanhazip.com" ∧
    ((getValidSources 64 (some { Replies := IPv6 }) sourcesList).bind
        (fun m => mapGet m ICANHAZIP)).map Source.Address = some "ipv6.icanhazip.com" ∧
    ((getValidSources 64 (some { Replies := IPv6 }) sourcesList).bind
        (fun m => mapGet m IPIFY)).map Source.Address = some "api64.ipify.org" ∧
    (∀ m s, getValidSources 64 (some { Replies := IPv4 }) sourcesList = some m →
      mapGet m ICANHAZIP = some s →
      (IPv4 = IPv4 → "ipv4.icanhazip.com" ≠ "" →
        s.Address = "ipv4.icanhazip.com" ∧
        ("ipv4.icanhazip.com" ≠ "icanhazip.com" → s.Address ≠ "icanhazip.com")) ∧
      (IPv4 = IPv6 → "ipv6.icanhazip.com" ≠ "" →
        s.Address = "ipv6.icanhazip.com" ∧
        ("ipv6.icanhazip.com" ≠ "icanhazip.com" → s.Address ≠ "icanhazip.com"))) ∧
    ∃ m, getValidSources 64 (some { Replies := IPv4 }) sourcesList = some m :=
  ⟨by decide, by decide, by decide, by decide, by decide, by decide,
    (getValidSources_family_override 64 sourcesList (by decide) { Replies := IPv4 } ICANHAZIP
      { ID := ICANHAZIP, Address := "icanhazip.com", AddressIPv4 := "ipv4.icanhazip.com",
        AddressIPv6 := "ipv6.icanhazip.com", Protocols := HTTP ||| HTTPS,
        Replies := IPv4 ||| IPv6 }
      (by decide)).1,
    (getValidSources_family_override 64 sourcesList (by decide) { Replies := IPv4 } ICANHAZIP
      { ID := ICANHAZIP, Address := "icanhazip.com", AddressIPv4 := "ipv4.icanhazip.com",
        AddressIPv6 := "ipv6.icanhazip.com", Protocols := HTTP ||| HTTPS,
        Replies := IPv4 ||| IPv6 }
      (by decide)).2 (by decide) (by decide)⟩

/-- Counterexample to C5 as stated.  The entry `v4OnlyEntry` answers IPv4 only and has an
IPv4 address of its own; the filter is non-nil and restricts the protocol only.  The
narrowed `Replies` is exactly `IPv4` and `AddressIPv4` is non-empty, yet the narrowed
`Address` is the default address, not `AddressIPv4`. -/
theorem unconstrained_family_keeps_default_address :
    (getValidSources 64 (some { Proto := HTTPS }) [(1, v4OnlyEntry)]).bind
        (fun m => mapGet m 1) = some
      { ID := 1, Address := "ip.example.org", Protocols := HTTPS, Replies := IPv4 } ∧
    v4OnlyEntry.AddressIPv4 = "ipv4.example.org" ∧
    ¬ (∀ m v s, getValidSources 64 (some { Proto := HTTPS }) [(1, v4OnlyEntry)] = some m →
        mapGet [(1, v4OnlyEntry)] 1 = some v → mapGet m 1 = some s →
        (s.Replies = IPv4 ∧ v.AddressIPv4 ≠ "" → s.Address = v.AddressIPv4)) := by
  refine ⟨by decide, by decide, ?_⟩
  intro h
  have h' := h [(1, { ID := 1, Address := "ip.example.org", Protocols := HTTPS,
                      Replies := IPv4 })] v4OnlyEntry
    { ID := 1, Address := "ip.example.org", Protocols := HTTPS, Replies := IPv4 }
    (by decide) (by decide) (by decide) ⟨by decide, by decide⟩
  exact absurd h' (by decide)

/-- C5, amended.  For a non-nil filter `F` and an entry `v` that `F` keeps, with `s` the
narrowed descriptor: if `F.Replies` is non-zero, `s.Replies` is exactly `IPv4` and
`v.AddressIPv4` is non-empty then `s.Address = v.AddressIPv4`; if `F.Replies` is non-zero,
`s.Replies` is exactly `IPv6` and `v.AddressIPv6` is non-empty then
`s.Address = v.AddressIPv6`; in every other case, which includes every filter with
`F.Replies = 0`, `s.Address = v.Address`.  This is stated of every map `getValidSources`
returns; it does return, with fuel 64 or more, on every catalog whose values have bit 63
clear. -/
theorem getValidSources_address_rule (fuel : Nat) (L : SourceMap) (hL : KeysNodup L)
    (F : SourceFilter) (k : SourceID) (v : Source) (hv : mapGet L k = some v) :
    (∀ m s, getValidSources fuel (some F) L = some m → mapGet m k = some s →
      (F.Replies ≠ 0 ∧ s.Replies = IPv4 ∧ v.AddressIPv4 ≠ "" → s.Address = v.AddressIPv4) ∧
      (F.Replies ≠ 0 ∧ s.Replies = IPv6 ∧ v.AddressIPv6 ≠ "" → s.Address = v.AddressIPv6) ∧
      (¬ (F.Replies ≠ 0 ∧ s.Replies = IPv4 ∧ v.AddressIPv4 ≠ "") →
       ¬ (F.Replies ≠ 0 ∧ s.Replies = IPv6 ∧ v.AddressIPv6 ≠ "") → s.Address = v.Address) ∧
      (F.Replies = 0 → s.Address = v.Address)) ∧
    (CatalogFits L → 64 ≤ fuel → ∃ m, getValidSources fuel (some F) L = some m) := by
  refine ⟨?_, fun hfit hfuel => getValidSources_returns fuel (some F) L hfit hfuel⟩
  intro m s hm hs
  rw [getValidSources_get fuel F L hL m hm k, hv] at hs
  simp only [Option.bind_eq_bind, Option.some_bind] at hs
  obtain ⟨-, -, -, -, -, -, fA⟩ := narrowEntry_fields F v s hs
  refine ⟨?_, ?_, ?_, ?_⟩
  · intro h
    rw [fA, if_pos h]
  · intro h
    have hnot4 : ¬ (F.Replies ≠ 0 ∧ s.Replies = IPv4 ∧ v.AddressIPv4 ≠ "") := by
      rintro ⟨-, h4, -⟩
      rw [h.2.1] at h4
      exact absurd h4 (by decide)
    rw [fA, if_neg hnot4, if_pos h]
  · intro h4 h6
    rw [fA, if_neg h4, if_neg h6]
  · intro h0
    rw [fA, if_neg (fun h => h.1 h0), if_neg (fun h => h.1 h0)]

theorem getValidSources_address_rule_witness :
    KeysNodup sourcesList ∧ CatalogFits sourcesList ∧
    mapGet sourcesList IPIFY = some
      { ID := IPIFY, Address := "api.ipify.org", AddressIPv4 := "api.ipify.org",
        AddressIPv6 := "api64.ipify.org", Protocols := HTTP ||| HTTPS,
        Replies := IPv4 ||| IPv6 } ∧
    (getValidSources 64 (some { Replies := IPv6 }) sourcesList).bind
        (fun m => mapGet m IPIFY) = some
      { ID := IPIFY, Address := "api64.ipify.org", Protocols := HTTP ||| HTTPS,
        Replies := IPv6 } ∧
    (∀ m s, getValidSources 64 (some { Replies := IPv6 }) sourcesList = some m →
      mapGet m IPIFY = some s →
      (IPv6 ≠ 0 ∧ s.Replies = IPv4 ∧ "api.ipify.org" ≠ "" → s.Address = "api.ipify.org") ∧
      (IPv6 ≠ 0 ∧ s.Replies = IPv6 ∧ "api64.ipify.org" ≠ "" →
        s.Address = "api64.ipify.org") ∧
      (¬ (IPv6 ≠ 0 ∧ s.Replies = IPv4 ∧ "api.ipify.org" ≠ "") →
       ¬ (IPv6 ≠ 0 ∧ s.Replies = IPv6 ∧ "api64.ipify.org" ≠ "") →
        s.Address = "api.ipify.org") ∧
      (IPv6 = 0 → s.Address = "api.ipify.org")) ∧
    ∃ m, getValidSources 64 (some { Replies := IPv6 }) sourcesList = some m :=
  ⟨by decide, by decide, by decide, by decide,
    (getValidSources_address_rule 64 sourcesList (by decide) { Replies := IPv6 } IPIFY
      { ID := IPIFY, Address := "api.ipify.org", AddressIPv4 := "api.ipify.org",
        AddressIPv6 := "api64.ipify.org", Protocols := HTTP ||| HTTPS,
        Replies := IPv4 ||| IPv6 }
      (by decide)).1,
    (getValidSources_address_rule 64 sourcesList (by decide) { Replies := IPv6 } IPIFY
      { ID := IPIFY, Address := "api.ipify.org", AddressIPv4 := "api.ipify.org",
        AddressIPv6 := "api64.ipify.org", Protocols := HTTP ||| HTTPS,
        Replies := IPv4 ||| IPv6 }
      (by decide)).2 (by decide) (by decide)⟩

/-- C6. A filter whose `ID` is non-zero and shares no bit with the `ID` of any catalog
entry narrows the catalog to the empty map, whatever its `Proto` and `Replies` are: the
function returns that map, with any fuel, because no entry reaches the log call. -/
theorem getValidSources_unknown_id (fuel : Nat) (L : SourceMap) (F : SourceFilter)
    (hF : F.ID ≠ 0) (hno : ∀ kv ∈ L, kv.2.ID &&& F.ID = 0) :
    getValidSources fuel (some F) L = some [] := by
  have hstep : ∀ (l acc : SourceMap), (∀ kv ∈ l, kv.2.ID &&& F.ID = 0) →
      rangeValidSources fuel F l acc = some acc := by
    intro l
    induction l with
    | nil => intro acc _; rfl
    | cons hd tl ih =>
      intro acc h
      have hhd : narrowEntry F hd.2 = none := by
        rw [narrowEntry_eq_none_iff]
        rintro ⟨-, -, h3⟩
        exact h3.elim hF (fun hne => hne (h hd (List.mem_cons_self _ _)))
      have hs : validSourcesStep fuel F acc hd = some acc := by
        simp [validSourcesStep, hhd]
      unfold rangeValidSources
      rw [hs]
      exact ih acc (fun kv hkv => h kv (List.mem_cons_of_mem _ hkv))
  exact hstep L [] hno

theorem getValidSources_unknown_id_witness :
    (32 : SourceID) ≠ 0 ∧ (∀ kv ∈ sourcesList, kv.2.ID &&& 32 = 0) ∧
    getValidSources 0 (some { ID := 32, Proto := HTTPS, Replies := IPv6 }) sourcesList
      = some [] ∧
    getValidSources 64 (some { ID := 32 }) sourcesList = some [] :=
  ⟨by decide, by decide,
    getValidSources_unknown_id 0 sourcesList { ID := 32, Proto := HTTPS, Replies := IPv6 }
      (by decide) (by decide),
    by decide⟩

/-! ## Fetching: claims -/

/-- C7. If the source has the HTTPS bit and the request to `"https://" + s.Address` returns
a body whose trimmed text parses as an IP literal, `Fetch` returns that address with
`true`, and the trace grows by that one HTTPS request only: no `http://` request, no host
lookup and no DNS exchange is made, whatever other protocol bits are set. -/
theorem Fetch_https_success (net : Net) (s : Source) (tr : List Call) (resp : Response)
    (body : String) (ip : List Nat)
    (hbit : s.Protocols &&& HTTPS ≠ 0)
    (hget : net.httpGet tr ("https://" ++ s.Address) = .ok resp)
    (hread : resp.ReadAll = .ok body)
    (hparse : net.ParseIP (net.TrimSpace body) = some ip) :
    Fetch net s tr = (.ok (some ip, true), tr ++ [Call.httpGet ("https://" ++ s.Address)]) := by
  unfold Fetch
  rw [if_pos hbit]
  simp only [http_attempt_success net _ tr resp body ip hget hread hparse, getHTTPBody_trace]
  rfl

theorem Fetch_https_success_witness :
    manyProtocolsSource.Protocols &&& HTTPS ≠ 0 ∧
    httpsAnswersNet.httpGet [] ("https://" ++ manyProtocolsSource.Address)
      = .ok { ReadAll := .ok "203.0.113.7\n" } ∧
    httpsAnswersNet.ParseIP (httpsAnswersNet.TrimSpace "203.0.113.7\n")
      = some [0, 0, 0, 0, 0, 0, 0, 0, 0, 0, 255, 255, 203, 0, 113, 7] ∧
    Fetch httpsAnswersNet manyProtocolsSource []
      = (.ok (some [0, 0, 0, 0, 0, 0, 0, 0, 0, 0, 255, 255, 203, 0, 113, 7], true),
         [] ++ [Call.httpGet ("https://" ++ manyProtocolsSource.Address)]) :=
  ⟨by decide, by rfl, by decide,
    Fetch_https_success httpsAnswersNet manyProtocolsSource []
      { ReadAll := .ok "203.0.113.7\n" } "203.0.113.7\n"
      [0, 0, 0, 0, 0, 0, 0, 0, 0, 0, 255, 255, 203, 0, 113, 7]
      (by decide) (by rfl) rfl (by decide)⟩

/-- C8. `Fetch` returns `found = false` exactly when every attempt it makes fails: the
HTTPS attempt if the HTTPS bit is set, then the HTTP attempt if the HTTP bit is set, then
the DNS attempt if the DNS or the DNS_TXT bit is set, each made at the trace left by the
attempts before it.  The address returned with `false` is nil, and a source with none of
the four protocol bits returns `(nil, false)` and leaves the trace as it was. -/
theorem Fetch_not_found_iff (net : Net) (s : Source) (tr : List Call) :
    ((∃ ip, (Fetch net s tr).1 = .ok (ip, false)) ↔
      (s.Protocols &&& HTTPS ≠ 0 → HTTPAttemptFails net tr ("https://" ++ s.Address)) ∧
      (s.Protocols &&& HTTP ≠ 0 →
        HTTPAttemptFails net
          (tr ++ if s.Protocols &&& HTTPS ≠ 0 then [Call.httpGet ("https://" ++ s.Address)]
                 else [])
          ("http://" ++ s.Address)) ∧
      (s.Protocols &&& DNS ≠ 0 ∨ s.Protocols &&& DNS_TXT ≠ 0 →
        DNSAttemptFails net
          ((tr ++ if s.Protocols &&& HTTPS ≠ 0 then [Call.httpGet ("https://" ++ s.Address)]
                  else []) ++
            if s.Protocols &&& HTTP ≠ 0 then [Call.httpGet ("http://" ++ s.Address)]
            else [])
          s.Address s.Server)) ∧
    (∀ ip, (Fetch net s tr).1 = .ok (ip, false) → ip = none) ∧
    (s.Protocols &&& HTTPS = 0 → s.Protocols &&& HTTP = 0 → s.Protocols &&& DNS = 0 →
      s.Protocols &&& DNS_TXT = 0 → Fetch net s tr = (.ok (none, false), tr)) := by
  refine ⟨?_, ?_, ?_⟩
  · unfold Fetch
    by_cases hb : s.Protocols &&& HTTPS ≠ 0
    · simp only [if_pos hb, getHTTPBody_trace]
      have hiff := http_attempt_fails_iff net ("https://" ++ s.Address) tr
      cases hres : (stringToNetIP net (getHTTPBody net ("https://" ++ s.Address) tr).1.1
          (getHTTPBody net ("https://" ++ s.Address) tr).1.2).2 with
      | true =>
        rw [hres] at hiff
        have hnf : ¬ HTTPAttemptFails net tr ("https://" ++ s.Address) := by
          intro h; exact absurd (hiff.2 h) (by decide)
        simp [hnf, hb]
      | false =>
        rw [hres] at hiff
        have hf : HTTPAttemptFails net tr ("https://" ++ s.Address) := hiff.1 rfl
        simp only [Bool.false_eq_true, if_false, hf, implies_true, true_and]
        exact fetchFromHTTP_not_found_iff net s _
    · simp only [if_neg hb, List.append_nil]
      rw [fetchFromHTTP_not_found_iff]
      simp [hb]
  · intro ip h
    unfold Fetch at h
    by_cases hb : s.Protocols &&& HTTPS ≠ 0
    · simp only [if_pos hb] at h
      cases hres : (stringToNetIP net (getHTTPBody net ("https://" ++ s.Address) tr).1.1
          (getHTTPBody net ("https://" ++ s.Address) tr).1.2).2 with
      | true => simp [hres] at h
      | false =>
        simp only [hres, Bool.false_eq_true, if_false] at h
        exact fetchFromHTTP_nil_of_not_found net s _ ip h
    · simp only [if_neg hb] at h
      exact fetchFromHTTP_nil_of_not_found net s _ ip h
  · intro h1 h2 h3 h4
    simp [Fetch, fetchFromHTTP, fetchFromDNS, h1, h2, h3, h4]

theorem Fetch_not_found_iff_witness :
    ifconfigmeSource.Protocols = HTTP ||| HTTPS ∧
    rateLimitedNet.httpGet [] "https://ifconfig.me/ip" = .ok { ReadAll := .ok "rate limited" } ∧
    rateLimitedNet.httpGet [Call.httpGet "https://ifconfig.me/ip"] "http://ifconfig.me/ip"
      = .error "connection refused" ∧
    (∃ ip, (Fetch rateLimitedNet ifconfigmeSource []).1 = .ok (ip, false)) ∧
    Fetch rateLimitedNet ifconfigmeSource []
      = (.ok (none, false),
         [Call.httpGet "https://ifconfig.me/ip", Call.httpGet "http://ifconfig.me/ip"]) :=
  ⟨by decide, by rfl, by rfl,
    (Fetch_not_found_iff rateLimitedNet ifconfigmeSource []).1.2
      ⟨fun _ => Or.inr ⟨{ ReadAll := .ok "rate limited" }, by rfl,
          Or.inr ⟨"rate limited", rfl, by decide⟩⟩,
       fun _ => Or.inl ⟨"connection refused", by rfl⟩,
       fun h => absurd h (by decide)⟩,
    by rfl⟩

/-- C9. When the exchange succeeds, `getDNSQuery` decides from the first answer record
alone: no record is an error; a first record of type A or AAAA gives that record's address
and no error; a first record of type TXT gives `ParseIP` of its segments concatenated in
order when that parses and an error when it does not; any other first record is an error.
The records after the first never matter. -/
theorem getDNSQuery_first_answer (net : Net) (addr server : String) (tr : List Call)
    (serverport : String) (answer : List RR)
    (hport : dnsServerport net server tr = .ok serverport)
    (hex : net.Exchange (tr ++ [Call.lookupHost server]) (net.Fqdn addr) TypeANY serverport
      = .ok answer) :
    (answer = [] → ∃ e, (getDNSQuery net addr server tr).1 = .ok (none, some e)) ∧
    (∀ a rest, answer = RR.A a :: rest →
      (getDNSQuery net addr server tr).1 = .ok (a, none)) ∧
    (∀ aaaa rest, answer = RR.AAAA aaaa :: rest →
      (getDNSQuery net addr server tr).1 = .ok (aaaa, none)) ∧
    (∀ txt rest, answer = RR.TXT txt :: rest →
      (∀ ip, net.ParseIP (String.join txt) = some ip →
        (getDNSQuery net addr server tr).1 = .ok (some ip, none)) ∧
      (net.ParseIP (String.join txt) = none →
        ∃ e, (getDNSQuery net addr server tr).1 = .ok (none, some e))) ∧
    (∀ t rest, answer = RR.other t :: rest →
      ∃ e, (getDNSQuery net addr server tr).1 = .ok (none, some e)) := by
  refine ⟨?_, ?_, ?_, ?_, ?_⟩
  · intro h
    subst h
    exact ⟨"Not enough content in answer in reply", by simp [getDNSQuery, hport, hex]⟩
  · intro a rest h
    subst h
    simp [getDNSQuery, hport, hex]
  · intro a rest h
    subst h
    simp [getDNSQuery, hport, hex]
  · intro txt rest h
    subst h
    have hjoin : txt.foldl (fun b t => b ++ t) "" = String.join txt := rfl
    constructor
    · intro ip hip
      simp [getDNSQuery, hport, hex, hjoin, hip]
    · intro hnone
      exact ⟨"Failed to get A or AAAA reply",
        by simp [getDNSQuery, hport, hex, hjoin, hnone]⟩
  · intro t rest h
    subst h
    exact ⟨"Failed to get A or AAAA reply", by simp [getDNSQuery, hport, hex]⟩

theorem getDNSQuery_first_answer_witness :
    dnsServerport txtAnswerNet "ns1.google.com" [] = .ok "216.239.32.10:53" ∧
    txtAnswerNet.Exchange ([] ++ [Call.lookupHost "ns1.google.com"])
        (txtAnswerNet.Fqdn "o-o.myaddr.l.google.com") TypeANY "216.239.32.10:53"
      = .ok [RR.TXT ["2001:db8::", "1"], RR.A (some [192, 0, 2, 1])] ∧
    String.join ["2001:db8::", "1"] = "2001:db8::1" ∧
    (getDNSQuery txtAnswerNet "o-o.myaddr.l.google.com" "ns1.google.com" []).1
      = .ok (some [32, 1, 13, 184, 0, 0, 0, 0, 0, 0, 0, 0, 0, 0, 0, 1], none) ∧
    Fetch txtAnswerNet googleTxtSource []
      = (.ok (some [32, 1, 13, 184, 0, 0, 0, 0, 0, 0, 0, 0, 0, 0, 0, 1], true),
         [Call.lookupHost "ns1.google.com",
          Call.exchange "o-o.myaddr.l.google.com." TypeANY "216.239.32.10:53"]) :=
  ⟨by rfl, by rfl, by decide,
    ((getDNSQuery_first_answer txtAnswerNet "o-o.myaddr.l.google.com" "ns1.google.com" []
        "216.239.32.10:53" [RR.TXT ["2001:db8::", "1"], RR.A (some [192, 0, 2, 1])]
        (by rfl) (by rfl)).2.2.2.1 ["2001:db8::", "1"] [RR.A (some [192, 0, 2, 1])] rfl).1
      [32, 1, 13, 184, 0, 0, 0, 0, 0, 0, 0, 0, 0, 0, 0, 1] (by decide),
    by rfl⟩

/-- C10. The lookup loop of `Get` over no candidates returns `(nil, false)` and makes no
network call.  Hence for every filter that narrows the static catalog to the empty map,
`Get` returns `(nil, false)` with the trace untouched, in every network, for every visiting
order and from every starting trace. -/
theorem Get_no_candidates (fuel : Nat) (net : Net) (visit : SourceMap → SourceMap)
    (sf : Option SourceFilter) (tr : List Call)
    (hvisit : IsRangeOrder visit)
    (hempty : getValidSources fuel sf sourcesList = some []) :
    rangeFetch net [] tr = (.ok (none, false), tr) ∧
    Get fuel net visit sf tr = some (.ok (none, false), tr) := by
  refine ⟨rfl, ?_⟩
  unfold Get
  rw [hempty]
  have hnil : visit [] = [] := List.Perm.eq_nil (hvisit [])
  simp only [hnil]
  rfl

theorem Get_no_candidates_witness :
    IsRangeOrder List.reverse ∧
    getValidSources 0 (some { ID := 32 }) sourcesList = some [] ∧
    rangeFetch httpsAnswersNet [] [] = (.ok (none, false), []) ∧
    Get 0 httpsAnswersNet List.reverse (some { ID := 32 }) [] = some (.ok (none, false), []) :=
  ⟨fun m => List.reverse_perm m, by decide,
    Get_no_candidates 0 httpsAnswersNet List.reverse (some { ID := 32 }) []
      (fun m => List.reverse_perm m) (by decide)⟩

/-! ## The filter engine: frame, neutral filter, idempotence -/

theorem mapSet_of_not_mem (m : SourceMap) (k : SourceID) (v : Source)
    (h : k ∉ mapKeys m) : mapSet m k v = m ++ [(k, v)] := by
  induction m with
  | nil => rfl
  | cons hd tl ih =>
    obtain ⟨k', v'⟩ := hd
    have hk : ¬ k' = k := by
      intro e; apply h; simp [mapKeys, e]
    have htl : k ∉ mapKeys tl := by
      intro e; apply h
      simp only [mapKeys, List.map_cons, List.mem_cons]
      exact Or.inr e
    simp [mapSet, hk, ih htl]

theorem mapGet_of_mem (m : SourceMap) (hm : KeysNodup m) (k : SourceID) (v : Source)
    (h : (k, v) ∈ m) : mapGet m k = some v := by
  induction m with
  | nil => simp at h
  | cons hd tl ih =>
    obtain ⟨k', v'⟩ := hd
    have hcons : k' ∉ mapKeys tl ∧ KeysNodup tl := by
      simpa [KeysNodup, mapKeys] using hm
    rcases List.mem_cons.1 h with heq | hmem
    · cases heq
      simp [mapGet]
    · have hne : ¬ k' = k := by
        intro e
        subst e
        apply hcons.1
        simp only [mapKeys, List.mem_map]
        exact ⟨(k', v), hmem, rfl⟩
      simp [mapGet, hne, ih hcons.2 hmem]

theorem narrowEntry_idem (sf : SourceFilter) (v s : Source) (h : narrowEntry sf v = some s) :
    narrowEntry sf s = some s := by
  obtain ⟨hP, hR, hI⟩ := (narrowEntry_isSome_iff sf v).1 ⟨s, h⟩
  obtain ⟨fID, fS, f4, f6, fP, fR, fA⟩ := narrowEntry_fields sf v s h
  have hPs : s.Protocols &&& sf.Proto = s.Protocols ∨ sf.Proto = 0 := by
    by_cases hz : sf.Proto = 0
    · exact Or.inr hz
    · left
      rw [fP, if_pos hz, Nat.and_assoc, Nat.and_self]
  have hRs : s.Replies &&& sf.Replies = s.Replies ∨ sf.Replies = 0 := by
    by_cases hz : sf.Replies = 0
    · exact Or.inr hz
    · left
      rw [fR, if_pos hz, Nat.and_assoc, Nat.and_self]
  have hPne : sf.Proto ≠ 0 → s.Protocols ≠ 0 := by
    intro hz
    rw [fP, if_pos hz]
    exact hP.resolve_left hz
  have hRne : sf.Replies ≠ 0 → s.Replies ≠ 0 := by
    intro hz
    rw [fR, if_pos hz]
    exact hR.resolve_left hz
  have hkeep : Keeps sf s := by
    refine ⟨?_, ?_, ?_⟩
    · by_cases hz : sf.Proto = 0
      · exact Or.inl hz
      · right
        rw [hPs.resolve_right hz]
        exact hPne hz
    · by_cases hz : sf.Replies = 0
      · exact Or.inl hz
      · right
        rw [hRs.resolve_right hz]
        exact hRne hz
    · rw [fID]; exact hI
  obtain ⟨s', hs'⟩ := (narrowEntry_isSome_iff sf s).2 hkeep
  obtain ⟨gID, gS, g4, g6, gP, gR, gA⟩ := narrowEntry_fields sf s s' hs'
  rw [hs']
  congr 1
  have e1 : s'.Protocols = s.Protocols := by
    rw [gP]
    split_ifs with hz
    · exact hPs.resolve_right hz
    · rfl
  have e2 : s'.Replies = s.Replies := by
    rw [gR]
    split_ifs with hz
    · exact hRs.resolve_right hz
    · rfl
  have e3 : s'.Address = s.Address := by
    rw [gA, if_neg (fun hc => hc.2.2 f4), if_neg (fun hc => hc.2.2 f6)]
  cases s
  cases s'
  simp_all

theorem Fetch_congr (net : Net) (s v : Source) (tr : List Call)
    (hP : s.Protocols = v.Protocols) (hA : s.Address = v.Address) (hS : s.Server = v.Server) :
    Fetch net s tr = Fetch net v tr := by
  simp only [Fetch, fetchFromHTTP, fetchFromDNS, hP, hA, hS]

theorem rangeValidSources_fixed (fuel : Nat) (sf : SourceFilter) (M acc : SourceMap)
    (hfix : ∀ kv ∈ M, narrowEntry sf kv.2 = some kv.2)
    (hprint : ∀ kv ∈ M, printlnSource fuel kv.2 = some ())
    (hM : KeysNodup M) (hdisj : ∀ k ∈ mapKeys M, k ∉ mapKeys acc) :
    rangeValidSources fuel sf M acc = some (acc ++ M) := by
  induction M generalizing acc with
  | nil => simp [rangeValidSources]
  | cons hd tl ih =>
    obtain ⟨k, v⟩ := hd
    have hcons : k ∉ mapKeys tl ∧ KeysNodup tl := by
      simpa [KeysNodup, mapKeys] using hM
    have hk : k ∉ mapKeys acc := hdisj k (by simp [mapKeys])
    have hstep : validSourcesStep fuel sf acc (k, v) = some (acc ++ [(k, v)]) := by
      have h1 := hfix (k, v) (List.mem_cons_self _ _)
      have h2 := hprint (k, v) (List.mem_cons_self _ _)
      simp only at h1 h2
      simp [validSourcesStep, h1, h2, mapSet_of_not_mem acc k v hk]
    unfold rangeValidSources
    rw [hstep]
    simp only
    rw [ih]
    · simp
    · intro kv hkv
      exact hfix kv (List.mem_cons_of_mem _ hkv)
    · intro kv hkv
      exact hprint kv (List.mem_cons_of_mem _ hkv)
    · exact hcons.2
    · intro k' hk' hmem
      have hk'M : k' ∈ mapKeys ((k, v) :: tl) := by
        simp only [mapKeys, List.map_cons, List.mem_cons]
        exact Or.inr hk'
      simp only [mapKeys, List.map_append, List.map_cons, List.map_nil, List.mem_append,
        List.mem_singleton] at hmem
      rcases hmem with h1 | h2
      · exact hdisj k' hk'M h1
      · subst h2
        exact hcons.1 hk'

theorem getValidSources_again (fuel : Nat) (sf : Option SourceFilter) (L : SourceMap)
    (hL : KeysNodup L) (m : SourceMap) (hm : getValidSources fuel sf L = some m) :
    getValidSources fuel sf m = some m := by
  cases sf with
  | none => rfl
  | some F =>
    have hR := getValidSources_keysNodup fuel (some F) L hL m hm
    have horigin : ∀ kv ∈ m, ∃ v, (kv.1, v) ∈ L ∧ narrowEntry F v = some kv.2 := by
      intro kv hkv
      have hg := mapGet_of_mem _ hR kv.1 kv.2 hkv
      rw [getValidSources_get fuel F L hL m hm kv.1] at hg
      cases hv : mapGet L kv.1 with
      | none => simp [hv] at hg
      | some v =>
        rw [hv] at hg
        simp only [Option.bind_eq_bind, Option.some_bind] at hg
        exact ⟨v, mapGet_mem L kv.1 v hv, hg⟩
    have hfix : ∀ kv ∈ m, narrowEntry F kv.2 = some kv.2 := by
      intro kv hkv
      obtain ⟨v, -, hn⟩ := horigin kv hkv
      exact narrowEntry_idem F v kv.2 hn
    have hprint : ∀ kv ∈ m, printlnSource fuel kv.2 = some () := by
      intro kv hkv
      obtain ⟨v, hmem, hn⟩ := horigin kv hkv
      exact rangeValidSources_printed fuel F L [] m hm (kv.1, v) hmem kv.2 hn
    have := rangeValidSources_fixed fuel F m [] hfix hprint hR
      (by intro k _ h; simp [mapKeys] at h)
    simpa [getValidSources] using this

/-- C13. For a non-nil filter, whenever `getValidSources` returns, the descriptor found
under key `k` of the map it returns is the narrowing of the catalog entry under the same
key `k`; its `ID` and `Server` are those of that entry; and every key of that map is a key
of the catalog.  The function does return, with fuel 64 or more, on every catalog whose
values have bit 63 clear. -/
theorem getValidSources_frame (fuel : Nat) (L : SourceMap) (hL : KeysNodup L)
    (F : SourceFilter) :
    (∀ m, getValidSources fuel (some F) L = some m →
      (∀ k s, mapGet m k = some s →
        ∃ v, mapGet L k = some v ∧ narrowEntry F v = some s ∧
          s.ID = v.ID ∧ s.Server = v.Server) ∧
      (∀ k', k' ∈ mapKeys m → k' ∈ mapKeys L)) ∧
    (CatalogFits L → 64 ≤ fuel → ∃ m, getValidSources fuel (some F) L = some m) := by
  refine ⟨?_, fun hfit hfuel => getValidSources_returns fuel (some F) L hfit hfuel⟩
  intro m hm
  constructor
  · intro k s hs
    rw [getValidSources_get fuel F L hL m hm k] at hs
    cases hv : mapGet L k with
    | none => simp [hv] at hs
    | some v =>
      rw [hv] at hs
      simp only [Option.bind_eq_bind, Option.some_bind] at hs
      obtain ⟨fID, fS, -⟩ := narrowEntry_fields F v s hs
      exact ⟨v, rfl, hs, fID, fS⟩
  · intro k' hk'
    rw [mem_mapKeys_iff] at hk' ⊢
    obtain ⟨s', hs'⟩ := hk'
    rw [getValidSources_get fuel F L hL m hm k'] at hs'
    cases hv : mapGet L k' with
    | none => simp [hv] at hs'
    | some v => exact ⟨v, rfl⟩

theorem getValidSources_frame_witness :
    KeysNodup sourcesList ∧ CatalogFits sourcesList ∧
    getValidSources 64 (some { Proto := DNS }) sourcesList = some
      [(OPENDNS, { ID := OPENDNS, Address := "myip.opendns.com",
                   Server := "resolver1.opendns.com", Protocols := DNS,
                   Replies := IPv4 ||| IPv6 })] ∧
    (∀ m, getValidSources 64 (some { Proto := DNS }) sourcesList = some m →
      (∀ k s, mapGet m k = some s →
        ∃ v, mapGet sourcesList k = some v ∧ narrowEntry { Proto := DNS } v = some s ∧
          s.ID = v.ID ∧ s.Server = v.Server) ∧
      (∀ k', k' ∈ mapKeys m → k' ∈ mapKeys sourcesList)) ∧
    ∃ m, getValidSources 64 (some { Proto := DNS }) sourcesList = some m :=
  ⟨by decide, by decide, by decide,
    (getValidSources_frame 64 sourcesList (by decide) { Proto := DNS }).1,
    (getValidSources_frame 64 sourcesList (by decide) { Proto := DNS }).2
      (by decide) (by decide)⟩

/-- Counterexample to C14 as stated.  The catalog has one entry whose `ID` has bit 63 set.
Under the non-nil all-zero filter the entry passes every guard, but the log call on it
never returns, so `getValidSources` returns no map, whatever the fuel, and the key of the
catalog is kept in no result. -/
theorem zero_filter_never_returns_on_minInt :
    2 ^ 63 ∈ mapKeys minIntCatalog ∧
    (∀ fuel, getValidSources fuel (some NewSourceFilter) minIntCatalog = none) ∧
    ¬ (∃ fuel m, getValidSources fuel (some NewSourceFilter) minIntCatalog = some m) := by
  have hnever : ∀ fuel, getValidSources fuel (some NewSourceFilter) minIntCatalog = none :=
    getValidSources_never_returns NewSourceFilter minIntCatalog
      (2 ^ 63, { ID := 2 ^ 63, Address := "ip.example.org", Protocols := HTTPS,
                 Replies := IPv4 })
      (by decide)
      { ID := 2 ^ 63, Address := "ip.example.org", Protocols := HTTPS, Replies := IPv4 }
      (by decide) (Or.inl (le_refl _))
  refine ⟨by decide, hnever, ?_⟩
  rintro ⟨fuel, m, hm⟩
  rw [hnever fuel] at hm
  exact absurd hm (by simp)

/-- C14, amended.  Under the non-nil filter with every field zero, the value
`NewSourceFilter` returns, whenever `getValidSources` returns, the map it returns has
exactly the keys of the catalog, and the descriptor under each key has the `ID`, `Address`,
`Server`, `Protocols` and `Replies` of the catalog entry, which is the entry a nil filter
yields; `Fetch` therefore behaves the same on both.  The function does return, with fuel
64 or more, on every catalog whose values have bit 63 clear. -/
theorem getValidSources_zero_filter (fuel : Nat) (L : SourceMap) (hL : KeysNodup L) :
    (∀ m, getValidSources fuel (some NewSourceFilter) L = some m →
      (∀ k, k ∈ mapKeys m ↔ k ∈ mapKeys L) ∧
      (∀ k v, mapGet L k = some v →
        ∃ s, mapGet m k = some s ∧
          (getValidSources fuel none L).bind (fun m' => mapGet m' k) = some v ∧
          s.ID = v.ID ∧ s.Address = v.Address ∧ s.Server = v.Server ∧
          s.Protocols = v.Protocols ∧ s.Replies = v.Replies ∧
          ∀ (net : Net) (tr : List Call), Fetch net s tr = Fetch net v tr)) ∧
    (CatalogFits L → 64 ≤ fuel →
      ∃ m, getValidSources fuel (some NewSourceFilter) L = some m) := by
  refine ⟨?_, fun hfit hfuel => getValidSources_returns fuel _ L hfit hfuel⟩
  intro m hm
  have hkeep : ∀ v, Keeps NewSourceFilter v := by
    intro v
    exact ⟨Or.inl rfl, Or.inl rfl, Or.inl rfl⟩
  have hget : ∀ k v, mapGet L k = some v →
      ∃ s, mapGet m k = some s ∧ narrowEntry NewSourceFilter v = some s := by
    intro k v hv
    obtain ⟨s, hs⟩ := (narrowEntry_isSome_iff NewSourceFilter v).2 (hkeep v)
    refine ⟨s, ?_, hs⟩
    rw [getValidSources_get fuel NewSourceFilter L hL m hm k, hv]
    simpa using hs
  constructor
  · intro k
    rw [mem_mapKeys_iff, mem_mapKeys_iff]
    constructor
    · rintro ⟨s, hs⟩
      rw [getValidSources_get fuel NewSourceFilter L hL m hm k] at hs
      cases hv : mapGet L k with
      | none => simp [hv] at hs
      | some v => exact ⟨v, rfl⟩
    · rintro ⟨v, hv⟩
      obtain ⟨s, hs, -⟩ := hget k v hv
      exact ⟨s, hs⟩
  · intro k v hv
    obtain ⟨s, hs, hn⟩ := hget k v hv
    obtain ⟨fID, fS, -, -, fP, fR, fA⟩ := narrowEntry_fields NewSourceFilter v s hn
    have hz : (NewSourceFilter).Replies = 0 := rfl
    have hzP : (NewSourceFilter).Proto = 0 := rfl
    have eP : s.Protocols = v.Protocols := by rw [fP, hzP]; simp
    have eR : s.Replies = v.Replies := by rw [fR, hz]; simp
    have eA : s.Address = v.Address := by
      rw [fA, if_neg (fun h => h.1 hz), if_neg (fun h => h.1 hz)]
    refine ⟨s, hs, ?_, fID, eA, fS, eP, eR, fun net tr => Fetch_congr net s v tr eP eA fS⟩
    simp [getValidSources, hv]

theorem getValidSources_zero_filter_witness :
    KeysNodup sourcesList ∧ CatalogFits sourcesList ∧
    (getValidSources 64 (some NewSourceFilter) sourcesList).map mapKeys
      = some (mapKeys sourcesList) ∧
    (getValidSources 64 (some NewSourceFilter) sourcesList).bind
        (fun m => mapGet m ICANHAZIP) = some
      { ID := ICANHAZIP, Address := "icanhazip.com", Protocols := HTTP ||| HTTPS,
        Replies := IPv4 ||| IPv6 } ∧
    (∀ m, getValidSources 64 (some NewSourceFilter) sourcesList = some m →
      (∀ k, k ∈ mapKeys m ↔ k ∈ mapKeys sourcesList) ∧
      (∀ k v, mapGet sourcesList k = some v →
        ∃ s, mapGet m k = some s ∧
          (getValidSources 64 none sourcesList).bind (fun m' => mapGet m' k) = some v ∧
          s.ID = v.ID ∧ s.Address = v.Address ∧ s.Server = v.Server ∧
          s.Protocols = v.Protocols ∧ s.Replies = v.Replies ∧
          ∀ (net : Net) (tr : List Call), Fetch net s tr = Fetch net v tr)) ∧
    ∃ m, getValidSources 64 (some NewSourceFilter) sourcesList = some m :=
  ⟨by decide, by decide, by decide, by decide,
    (getValidSources_zero_filter 64 sourcesList (by decide)).1,
    (getValidSources_zero_filter 64 sourcesList (by decide)).2 (by decide) (by decide)⟩

/-- C15. Narrowing twice with the same filter gives what narrowing once gives.  Whenever
the first call returns a map, the second call on that map returns the same map, hence the
same descriptor, field for field, under every key; when the first call does not return,
neither does the composition.  The first call does return, with fuel 64 or more, on every
catalog whose values have bit 63 clear. -/
theorem getValidSources_idempotent (fuel : Nat) (L : SourceMap) (hL : KeysNodup L)
    (sf : Option SourceFilter) :
    (getValidSources fuel sf L).bind (getValidSources fuel sf) = getValidSources fuel sf L ∧
    (∀ m, getValidSources fuel sf L = some m →
      ∃ m', getValidSources fuel sf m = some m' ∧ m' = m ∧
        (∀ k, mapGet m' k = mapGet m k) ∧ mapKeys m' = mapKeys m) ∧
    (CatalogFits L → 64 ≤ fuel →
      ∃ m, getValidSources fuel sf L = some m ∧ getValidSources fuel sf m = some m) := by
  have hagain := getValidSources_again fuel sf L hL
  refine ⟨?_, ?_, ?_⟩
  · cases hm : getValidSources fuel sf L with
    | none => rfl
    | some m => simpa using hagain m hm
  · intro m hm
    exact ⟨m, hagain m hm, rfl, fun _ => rfl, rfl⟩
  · intro hfit hfuel
    obtain ⟨m, hm⟩ := getValidSources_returns fuel sf L hfit hfuel
    exact ⟨m, hm, hagain m hm⟩

theorem getValidSources_idempotent_witness :
    KeysNodup sourcesList ∧ CatalogFits sourcesList ∧
    getValidSources 64 (some { Proto := HTTPS, Replies := IPv6 }) sourcesList
      = some
        [(ICANHAZIP, { ID := ICANHAZIP, Address := "ipv6.icanhazip.com", Protocols := HTTPS,
                       Replies := IPv6 }),
         (IPIFY, { ID := IPIFY, Address := "api64.ipify.org", Protocols := HTTPS,
                   Replies := IPv6 })] ∧
    (getValidSources 64 (some { Proto := HTTPS, Replies := IPv6 }) sourcesList).bind
        (getValidSources 64 (some { Proto := HTTPS, Replies := IPv6 }))
      = getValidSources 64 (some { Proto := HTTPS, Replies := IPv6 }) sourcesList ∧
    ∃ m, getValidSources 64 (some { Proto := HTTPS, Replies := IPv6 }) sourcesList = some m ∧
      getValidSources 64 (some { Proto := HTTPS, Replies := IPv6 }) m = some m :=
  ⟨by decide, by decide, by decide,
    (getValidSources_idempotent 64 sourcesList (by decide)
      (some { Proto := HTTPS, Replies := IPv6 })).1,
    (getValidSources_idempotent 64 sourcesList (by decide)
      (some { Proto := HTTPS, Replies := IPv6 })).2.2 (by decide) (by decide)⟩

/-! ## The handle: claims -/

theorem Get_returns (fuel : Nat) (net : Net) (visit : SourceMap → SourceMap)
    (sf : Option SourceFilter) (tr : List Call) (hfuel : 64 ≤ fuel) :
    ∃ g, Get fuel net visit sf tr = some g := by
  obtain ⟨m, hm⟩ := getValidSources_returns fuel sf sourcesList (by decide) hfuel
  exact ⟨rangeFetch net ((visit m).map Prod.snd) tr, by simp [Get, hm]⟩

/-- C16. `Update` returns when `Get` returns, which it does with fuel 64 or more.  It then
makes the calls `Get` makes and returns `true` exactly when `Get` reports found: on `true`
the handle holds the address `Get` returned, on `false` the handle is the one before the
call; the filter of the handle is the same in both cases. -/
theorem Update_follows_Get (fuel : Nat) (net : Net) (visit : SourceMap → SourceMap)
    (pip : PublicIP) (tr : List Call) :
    (Get fuel net visit pip.SourceFilter tr = none → Update fuel net visit pip tr = none) ∧
    (∀ g, Get fuel net visit pip.SourceFilter tr = some g →
      ∃ u, Update fuel net visit pip tr = some u ∧
        u.2 = g.2 ∧
        (∀ ip, g.1 = .ok (ip, true) →
          u.1 = .ok ({ IP := ip, SourceFilter := pip.SourceFilter }, true)) ∧
        (∀ ip, g.1 = .ok (ip, false) → u.1 = .ok (pip, false)) ∧
        (∀ pip' b, u.1 = .ok (pip', b) →
          ∃ ip, g.1 = .ok (ip, b) ∧
            pip'.SourceFilter = pip.SourceFilter ∧
            (b = true → pip'.IP = ip) ∧ (b = false → pip'.IP = pip.IP))) ∧
    (64 ≤ fuel → ∃ g, Get fuel net visit pip.SourceFilter tr = some g) := by
  refine ⟨?_, ?_, Get_returns fuel net visit pip.SourceFilter tr⟩
  · intro h
    simp [Update, h]
  · intro g hg
    obtain ⟨r, tr'⟩ := g
    cases r with
    | error p =>
      refine ⟨(.error p, tr'), by simp [Update, hg], rfl, ?_, ?_, ?_⟩
      · intro ip h; simp at h
      · intro ip h; simp at h
      · intro pip' b h; simp at h
    | ok v =>
      obtain ⟨ip, ok⟩ := v
      cases ok with
      | true =>
        refine ⟨(.ok ({ pip with IP := ip }, true), tr'), by simp [Update, hg], rfl,
          ?_, ?_, ?_⟩
        · intro ip' h
          simp only [Except.ok.injEq, Prod.mk.injEq] at h
          simp [h.1]
        · intro ip' h
          simp at h
        · intro pip' b h
          simp only [Except.ok.injEq, Prod.mk.injEq] at h
          obtain ⟨h1, h2⟩ := h
          subst h1 h2
          exact ⟨ip, rfl, rfl, fun _ => rfl, fun hb => absurd hb (by decide)⟩
      | false =>
        refine ⟨(.ok (pip, false), tr'), by simp [Update, hg], rfl, ?_, ?_, ?_⟩
        · intro ip' h
          simp at h
        · intro ip' h
          rfl
        · intro pip' b h
          simp only [Except.ok.injEq, Prod.mk.injEq] at h
          obtain ⟨h1, h2⟩ := h
          subst h1 h2
          exact ⟨ip, rfl, rfl, fun hb => absurd hb (by decide), fun _ => rfl⟩

theorem Update_follows_Get_witness :
    Get 64 httpsAnswersNet id staleHandle.SourceFilter [] = some (.ok (none, false), []) ∧
    Update 64 httpsAnswersNet id staleHandle [] = some (.ok (staleHandle, false), []) ∧
    Get 64 httpsAnswersNet id (some { ID := IFCONFIGME }) []
      = some (.ok (some [0, 0, 0, 0, 0, 0, 0, 0, 0, 0, 255, 255, 203, 0, 113, 7], true),
              [Call.httpGet "https://ifconfig.me/ip"]) ∧
    Update 64 httpsAnswersNet id { SourceFilter := some { ID := IFCONFIGME } } []
      = some (.ok ({ IP := some [0, 0, 0, 0, 0, 0, 0, 0, 0, 0, 255, 255, 203, 0, 113, 7],
                     SourceFilter := some { ID := IFCONFIGME } }, true),
              [Call.httpGet "https://ifconfig.me/ip"]) ∧
    (∃ u, Update 64 httpsAnswersNet id staleHandle [] = some u ∧
      u.2 = [] ∧
      (∀ ip, (Except.ok (none, false) : Run (NetIP × Bool)) = .ok (ip, true) →
        u.1 = .ok ({ IP := ip, SourceFilter := staleHandle.SourceFilter }, true)) ∧
      (∀ ip, (Except.ok (none, false) : Run (NetIP × Bool)) = .ok (ip, false) →
        u.1 = .ok (staleHandle, false)) ∧
      (∀ pip' b, u.1 = .ok (pip', b) →
        ∃ ip, (Except.ok (none, false) : Run (NetIP × Bool)) = .ok (ip, b) ∧
          pip'.SourceFilter = staleHandle.SourceFilter ∧
          (b = true → pip'.IP = ip) ∧ (b = false → pip'.IP = staleHandle.IP))) :=
  ⟨by rfl, by rfl, by rfl, by rfl,
    (Update_follows_Get 64 httpsAnswersNet id staleHandle []).2.1
      (.ok (none, false), []) (by rfl)⟩

/-! ## The attempts of one `Fetch`: claims -/

theorem attemptsMade_prefix (net : Net) (tr : List Call) (as : List Attempt) :
    (attemptsMade net tr as).1.map Prod.fst <+: as := by
  induction as generalizing tr with
  | nil => simp [attemptsMade]
  | cons a rest ih =>
    unfold attemptsMade
    by_cases h : attemptSucceeds net tr a
    · simp only [h, if_true, List.map_cons, List.map_nil]
      exact ⟨rest, rfl⟩
    · simp only [h, Bool.false_eq_true, if_false, List.map_cons]
      obtain ⟨t, ht⟩ := ih (tr ++ attemptCalls net tr a)
      exact ⟨t, by rw [List.cons_append, ht]⟩

theorem attemptsMade_dropLast (net : Net) (tr : List Call) (as : List Attempt) :
    ∀ x ∈ (attemptsMade net tr as).1.dropLast, x.2 = false := by
  induction as generalizing tr with
  | nil => simp [attemptsMade]
  | cons a rest ih =>
    unfold attemptsMade
    by_cases h : attemptSucceeds net tr a
    · simp [h]
    · simp only [h, Bool.false_eq_true, if_false]
      intro x hx
      have hih := ih (tr ++ attemptCalls net tr a)
      cases hr : (attemptsMade net (tr ++ attemptCalls net tr a) rest).1 with
      | nil => simp [hr] at hx
      | cons y ys =>
        rw [hr] at hx hih
        rw [List.dropLast_cons₂] at hx
        rcases List.mem_cons.1 hx with h1 | h2
        · rw [h1]
        · exact hih x h2

theorem attemptsMade_all_failed (net : Net) (tr : List Call) (as : List Attempt)
    (h : ∀ x ∈ (attemptsMade net tr as).1, x.2 = false) :
    (attemptsMade net tr as).1.map Prod.fst = as := by
  induction as generalizing tr with
  | nil => simp [attemptsMade]
  | cons a rest ih =>
    unfold attemptsMade at h ⊢
    by_cases hs : attemptSucceeds net tr a
    · simp [hs] at h
    · simp only [hs, Bool.false_eq_true, if_false, List.map_cons] at h ⊢
      rw [ih (tr ++ attemptCalls net tr a) (fun x hx => h x (List.mem_cons_of_mem _ hx))]

theorem stringToNetIP_snd_eq (net : Net) (url : String) (tr : List Call) :
    (stringToNetIP net (getHTTPBody net url tr).1.1 (getHTTPBody net url tr).1.2).2
      = httpBodyParses net tr url := by
  unfold httpBodyParses getHTTPBody stringToNetIP
  cases hg : net.httpGet tr url with
  | error e => simp
  | ok resp =>
    cases hr : resp.ReadAll with
    | error e => simp [hr]
    | ok body =>
      cases hp : net.ParseIP (net.TrimSpace body) <;> simp [hr, hp]

theorem getDNSQuery_trace (net : Net) (addr server : String) (tr : List Call) :
    (getDNSQuery net addr server tr).2 = tr ++ attemptCalls net tr (Attempt.dns addr server) := by
  unfold getDNSQuery
  cases hsp : dnsServerport net server tr with
  | error p => simp [attemptCalls, hsp]
  | ok sp =>
    have hc : attemptCalls net tr (Attempt.dns addr server)
        = [Call.lookupHost server, Call.exchange (net.Fqdn addr) TypeANY sp] := by
      simp [attemptCalls, hsp]
    rw [hc]
    simp only []
    cases hex : net.Exchange (tr ++ [Call.lookupHost server]) (net.Fqdn addr) TypeANY sp with
    | error e => simp
    | ok answer =>
      cases answer with
      | nil => simp
      | cons r rest =>
        cases r with
        | A a => simp
        | AAAA a => simp
        | TXT txt =>
          simp only []
          split_ifs <;> simp
        | other t => simp

theorem fetchFromDNS_attempts (net : Net) (s : Source) (tr : List Call) :
    (fetchFromDNS net s tr).2
      = (attemptsMade net tr
          (if s.Protocols &&& DNS ≠ 0 ∨ s.Protocols &&& DNS_TXT ≠ 0 then
            [Attempt.dns s.Address s.Server] else [])).2 ∧
    ((∃ ip, (fetchFromDNS net s tr).1 = .ok (ip, true)) ↔
      ∃ a, (a, true) ∈ (attemptsMade net tr
          (if s.Protocols &&& DNS ≠ 0 ∨ s.Protocols &&& DNS_TXT ≠ 0 then
            [Attempt.dns s.Address s.Server] else [])).1) := by
  by_cases hb : s.Protocols &&& DNS ≠ 0 ∨ s.Protocols &&& DNS_TXT ≠ 0
  · have htr := getDNSQuery_trace net s.Address s.Server tr
    simp only [fetchFromDNS, if_pos hb, attemptsMade, attemptSucceeds, dnsQueryAnswers]
    rcases hq : getDNSQuery net s.Address s.Server tr with ⟨r, tr'⟩
    rw [hq] at htr
    simp only at htr
    subst htr
    cases r with
    | error p => simp
    | ok v =>
      obtain ⟨ip, err⟩ := v
      cases err with
      | none => simp
      | some e => simp
  · simp [fetchFromDNS, if_neg hb, attemptsMade]

theorem fetchFromHTTP_attempts (net : Net) (s : Source) (tr : List Call) :
    (fetchFromHTTP net s tr).2
      = (attemptsMade net tr
          ((if s.Protocols &&& HTTP ≠ 0 then [Attempt.http ("http://" ++ s.Address)] else []) ++
           (if s.Protocols &&& DNS ≠ 0 ∨ s.Protocols &&& DNS_TXT ≠ 0 then
            [Attempt.dns s.Address s.Server] else []))).2 ∧
    ((∃ ip, (fetchFromHTTP net s tr).1 = .ok (ip, true)) ↔
      ∃ a, (a, true) ∈ (attemptsMade net tr
          ((if s.Protocols &&& HTTP ≠ 0 then [Attempt.http ("http://" ++ s.Address)] else []) ++
           (if s.Protocols &&& DNS ≠ 0 ∨ s.Protocols &&& DNS_TXT ≠ 0 then
            [Attempt.dns s.Address s.Server] else []))).1) := by
  by_cases hb : s.Protocols &&& HTTP ≠ 0
  · simp only [fetchFromHTTP, if_pos hb, List.singleton_append, attemptsMade, attemptSucceeds,
      attemptCalls, stringToNetIP_snd_eq, getHTTPBody_trace]
    cases hp : httpBodyParses net tr ("http://" ++ s.Address) with
    | true => simp
    | false =>
      simp only [Bool.false_eq_true, if_false]
      obtain ⟨h1, h2⟩ := fetchFromDNS_attempts net s (tr ++ [Call.httpGet ("http://" ++ s.Address)])
      refine ⟨h1, ?_⟩
      rw [h2]
      simp
  · simp only [fetchFromHTTP, if_neg hb, List.nil_append]
    exact fetchFromDNS_attempts net s tr

theorem Fetch_attempts_made (net : Net) (s : Source) (tr : List Call) :
    (Fetch net s tr).2 = (attemptsMade net tr (plannedAttempts s)).2 ∧
    ((∃ ip, (Fetch net s tr).1 = .ok (ip, true)) ↔
      ∃ a, (a, true) ∈ (attemptsMade net tr (plannedAttempts s)).1) := by
  unfold plannedAttempts
  rw [List.append_assoc]
  by_cases hb : s.Protocols &&& HTTPS ≠ 0
  · simp only [Fetch, if_pos hb, List.singleton_append, attemptsMade, attemptSucceeds,
      attemptCalls, stringToNetIP_snd_eq, getHTTPBody_trace]
    cases hp : httpBodyParses net tr ("https://" ++ s.Address) with
    | true => simp
    | false =>
      simp only [Bool.false_eq_true, if_false]
      obtain ⟨h1, h2⟩ :=
        fetchFromHTTP_attempts net s (tr ++ [Call.httpGet ("https://" ++ s.Address)])
      refine ⟨h1, ?_⟩
      rw [h2]
      simp
  · simp only [Fetch, if_neg hb, List.nil_append]
    exact fetchFromHTTP_attempts net s tr

theorem plannedAttempts_nodup (s : Source) : (plannedAttempts s).Nodup := by
  unfold plannedAttempts
  by_cases h1 : s.Protocols &&& HTTPS ≠ 0 <;> by_cases h2 : s.Protocols &&& HTTP ≠ 0 <;>
    by_cases h3 : s.Protocols &&& DNS ≠ 0 ∨ s.Protocols &&& DNS_TXT ≠ 0 <;>
    simp [h1, h2, h3]

theorem attemptsMade_trace (net : Net) (tr : List Call) (as : List Attempt) :
    (attemptsMade net tr as).2
      = ((attemptsMade net tr as).1.map Prod.fst).foldl
          (fun t a => t ++ attemptCalls net t a) tr := by
  induction as generalizing tr with
  | nil => simp [attemptsMade]
  | cons a rest ih =>
    unfold attemptsMade
    by_cases h : attemptSucceeds net tr a
    · simp [h]
    · simp only [h, Bool.false_eq_true, if_false, List.map_cons, List.foldl_cons]
      exact ih (tr ++ attemptCalls net tr a)

/-- C11. The attempts `Fetch` makes are a prefix of the planned list (HTTPS if its bit is
set, then HTTP if its bit is set, then one DNS query if the DNS or the DNS_TXT bit is set):
every attempt made but the last has failed, and when none succeeds the whole list is made.
The trace of `Fetch` is the calls of exactly those attempts in that order, and `Fetch`
reports found exactly when one of them succeeded.  So an attempt whose bit is clear is
never made, no attempt is made twice, and the DNS query occurs at most once even when both
DNS bits are set. -/
theorem Fetch_attempt_sequence (net : Net) (s : Source) (tr : List Call) :
    (attemptsMade net tr (plannedAttempts s)).1.map Prod.fst <+: plannedAttempts s ∧
    (Fetch net s tr).2
      = ((attemptsMade net tr (plannedAttempts s)).1.map Prod.fst).foldl
          (fun t a => t ++ attemptCalls net t a) tr ∧
    ((∃ ip, (Fetch net s tr).1 = .ok (ip, true)) ↔
      ∃ a, (a, true) ∈ (attemptsMade net tr (plannedAttempts s)).1) ∧
    (∀ x ∈ (attemptsMade net tr (plannedAttempts s)).1.dropLast, x.2 = false) ∧
    ((∀ x ∈ (attemptsMade net tr (plannedAttempts s)).1, x.2 = false) →
      (attemptsMade net tr (plannedAttempts s)).1.map Prod.fst = plannedAttempts s) ∧
    (s.Protocols &&& HTTPS = 0 →
      ∀ url, Attempt.https url ∉ (attemptsMade net tr (plannedAttempts s)).1.map Prod.fst) ∧
    (s.Protocols &&& HTTP = 0 →
      ∀ url, Attempt.http url ∉ (attemptsMade net tr (plannedAttempts s)).1.map Prod.fst) ∧
    (s.Protocols &&& DNS = 0 → s.Protocols &&& DNS_TXT = 0 →
      ∀ addr server,
        Attempt.dns addr server ∉ (attemptsMade net tr (plannedAttempts s)).1.map Prod.fst) ∧
    ((attemptsMade net tr (plannedAttempts s)).1.map Prod.fst).Nodup ∧
    (∀ a, ((attemptsMade net tr (plannedAttempts s)).1.map Prod.fst).count a ≤ 1) := by
  have hpre := attemptsMade_prefix net tr (plannedAttempts s)
  have hsub : ∀ a, a ∈ (attemptsMade net tr (plannedAttempts s)).1.map Prod.fst →
      a ∈ plannedAttempts s := fun a ha => hpre.subset ha
  have hnd : ((attemptsMade net tr (plannedAttempts s)).1.map Prod.fst).Nodup :=
    List.Nodup.sublist hpre.sublist (plannedAttempts_nodup s)
  obtain ⟨htr, hfound⟩ := Fetch_attempts_made net s tr
  refine ⟨hpre, ?_, hfound, attemptsMade_dropLast net tr _,
    attemptsMade_all_failed net tr _, ?_, ?_, ?_, hnd, ?_⟩
  · rw [htr]
    exact attemptsMade_trace net tr _
  · intro hz url hmem
    have := hsub _ hmem
    simp [plannedAttempts, hz] at this
  · intro hz url hmem
    have := hsub _ hmem
    simp [plannedAttempts, hz] at this
  · intro hz hz' addr server hmem
    have := hsub _ hmem
    simp [plannedAttempts, hz, hz'] at this
  · intro a
    exact List.nodup_iff_count_le_one.1 hnd a

theorem Fetch_attempt_sequence_witness :
    plannedAttempts bothDNSSource
      = [Attempt.dns "myip.opendns.com" "resolver1.opendns.com"] ∧
    (attemptsMade txtAnswerNet [] (plannedAttempts bothDNSSource)).1
      = [(Attempt.dns "myip.opendns.com" "resolver1.opendns.com", false)] ∧
    Fetch txtAnswerNet bothDNSSource []
      = (.ok (none, false),
         [Call.lookupHost "resolver1.opendns.com",
          Call.exchange "myip.opendns.com." TypeANY "resolver1.opendns.com:53"]) ∧
    plannedAttempts manyProtocolsSource
      = [Attempt.https "https://ifconfig.me/ip", Attempt.http "http://ifconfig.me/ip",
         Attempt.dns "ifconfig.me/ip" "ns.example.org"] ∧
    (attemptsMade httpsAnswersNet [] (plannedAttempts manyProtocolsSource)).1
      = [(Attempt.https "https://ifconfig.me/ip", true)] ∧
    (Fetch httpsAnswersNet manyProtocolsSource []).2
      = ((attemptsMade httpsAnswersNet [] (plannedAttempts manyProtocolsSource)).1.map
          Prod.fst).foldl (fun t a => t ++ attemptCalls httpsAnswersNet t a) [] :=
  ⟨by decide, by rfl, by rfl, by decide, by rfl,
    (Fetch_attempt_sequence httpsAnswersNet manyProtocolsSource []).2.1⟩

/-! ## The lookup loop: claims -/

theorem getHTTPBody_fst_blind (net : Net) (hb : TraceBlind net) (url : String)
    (t t' : List Call) : (getHTTPBody net url t).1 = (getHTTPBody net url t').1 := by
  unfold getHTTPBody
  rw [hb.1 t t' url]
  cases net.httpGet t' url with
  | error e => rfl
  | ok resp => cases hr : resp.ReadAll <;> simp [hr]

theorem dnsServerport_blind (net : Net) (hb : TraceBlind net) (server : String)
    (t t' : List Call) : dnsServerport net server t = dnsServerport net server t' := by
  unfold dnsServerport
  rw [hb.2.1 t t' server]

theorem getDNSQuery_fst_blind (net : Net) (hb : TraceBlind net) (addr server : String)
    (t t' : List Call) :
    (getDNSQuery net addr server t).1 = (getDNSQuery net addr server t').1 := by
  unfold getDNSQuery
  rw [dnsServerport_blind net hb server t t']
  cases hsp : dnsServerport net server t' with
  | error p => rfl
  | ok sp =>
    simp only []
    rw [hb.2.2 (t ++ [Call.lookupHost server]) (t' ++ [Call.lookupHost server])]
    cases hex : net.Exchange (t' ++ [Call.lookupHost server]) (net.Fqdn addr) TypeANY sp with
    | error e => rfl
    | ok answer =>
      cases answer with
      | nil => rfl
      | cons r rest =>
        cases r with
        | A a => rfl
        | AAAA a => rfl
        | TXT txt =>
          simp only []
          split_ifs <;> rfl
        | other n => rfl

theorem fetchFromDNS_fst_blind (net : Net) (hb : TraceBlind net) (s : Source)
    (t t' : List Call) : (fetchFromDNS net s t).1 = (fetchFromDNS net s t').1 := by
  unfold fetchFromDNS
  split_ifs with hbit
  · have h := getDNSQuery_fst_blind net hb s.Address s.Server t t'
    rcases hq : getDNSQuery net s.Address s.Server t with ⟨r, tr⟩
    rcases hq' : getDNSQuery net s.Address s.Server t' with ⟨r', tr'⟩
    rw [hq, hq'] at h
    simp only at h
    subst h
    cases r with
    | error p => rfl
    | ok v =>
      obtain ⟨ip, err⟩ := v
      cases err <;> rfl
  · rfl

theorem fetchFromHTTP_fst_blind (net : Net) (hb : TraceBlind net) (s : Source)
    (t t' : List Call) : (fetchFromHTTP net s t).1 = (fetchFromHTTP net s t').1 := by
  unfold fetchFromHTTP
  split_ifs with hbit
  · simp only [getHTTPBody_fst_blind net hb ("http://" ++ s.Address) t t']
    split_ifs
    · rfl
    · exact fetchFromDNS_fst_blind net hb s _ _
  · exact fetchFromDNS_fst_blind net hb s _ _

theorem Fetch_fst_blind (net : Net) (hb : TraceBlind net) (s : Source)
    (t t' : List Call) : (Fetch net s t).1 = (Fetch net s t').1 := by
  unfold Fetch
  split_ifs with hbit
  · simp only [getHTTPBody_fst_blind net hb ("https://" ++ s.Address) t t']
    split_ifs
    · rfl
    · exact fetchFromHTTP_fst_blind net hb s _ _
  · exact fetchFromHTTP_fst_blind net hb s _ _

theorem tableNet_traceBlind (http : String → Except String Response)
    (hosts : String → Except String (List String))
    (dns : String → String → Except String (List RR)) :
    TraceBlind (Ref.tableNet http hosts dns) :=
  ⟨fun _ _ _ => rfl, fun _ _ _ => rfl, fun _ _ _ _ _ => rfl⟩

theorem rangeFetch_closed_form (net : Net) (outcome : Source → NetIP × Bool)
    (order : List Source)
    (hfix : ∀ s ∈ order, ∀ t, (Fetch net s t).1 = .ok (outcome s)) (tr : List Call) :
    (rangeFetch net order tr).1
      = (match order.find? (fun s => (outcome s).2) with
         | some s => .ok ((outcome s).1, true)
         | none => .ok (none, false)) ∧
    (rangeFetch net order tr).2
      = (order.takeWhile (fun s => !(outcome s).2) ++
          (order.find? (fun s => (outcome s).2)).toList).foldl
          (fun t x => (Fetch net x t).2) tr := by
  induction order generalizing tr with
  | nil => exact ⟨rfl, rfl⟩
  | cons s rest ih =>
    have hs := hfix s (List.mem_cons_self _ _) tr
    have hrest : ∀ x ∈ rest, ∀ t, (Fetch net x t).1 = .ok (outcome x) :=
      fun x hx => hfix x (List.mem_cons_of_mem _ hx)
    rcases hf : Fetch net s tr with ⟨r, tr'⟩
    rw [hf] at hs
    simp only at hs
    subst hs
    rcases ho : outcome s with ⟨ip, ok⟩
    cases ok with
    | true =>
      simp [rangeFetch, hf, ho, List.find?, List.takeWhile]
    | false =>
      obtain ⟨h1, h2⟩ := ih hrest tr'
      simp only [rangeFetch, hf, ho, List.find?, List.takeWhile, Bool.false_eq_true, if_false,
        Bool.not_false, List.cons_append, List.foldl_cons]
      exact ⟨h1, h2⟩

theorem rangeFetch_found_iff (net : Net) (outcome : Source → NetIP × Bool)
    (order : List Source)
    (hfix : ∀ s ∈ order, ∀ t, (Fetch net s t).1 = .ok (outcome s)) (tr : List Call) :
    (∃ ip, (rangeFetch net order tr).1 = .ok (ip, true)) ↔
      ∃ s ∈ order, (outcome s).2 = true := by
  rw [(rangeFetch_closed_form net outcome order hfix tr).1]
  cases hfind : order.find? (fun s => (outcome s).2) with
  | none =>
    have hnone := List.find?_eq_none.1 hfind
    constructor
    · rintro ⟨ip, h⟩
      simp at h
    · rintro ⟨s, hs, ho⟩
      exact absurd ho (by simpa using hnone s hs)
  | some s =>
    have hmem := List.mem_of_find?_eq_some hfind
    have htrue := List.find?_some hfind
    constructor
    · intro _
      exact ⟨s, hmem, htrue⟩
    · intro _
      exact ⟨(outcome s).1, rfl⟩

/-- C12. Take candidates whose `Fetch` outcome is a fixed function of the source, and visit
them in any order.  The loop of `Get` returns the outcome of the first candidate in the
visiting order whose `Fetch` succeeds, and `(nil, false)` when there is none; its trace is
the traces of the `Fetch` calls on the candidates up to and including that first one, so no
later candidate is fetched.  It reports found exactly when some candidate succeeds, and the
found flag is the same for every visiting order. -/
theorem rangeFetch_first_success (net : Net) (outcome : Source → NetIP × Bool)
    (cands order : List Source) (tr : List Call)
    (hperm : order.Perm cands)
    (hfix : ∀ s ∈ cands, ∀ t, (Fetch net s t).1 = .ok (outcome s)) :
    (rangeFetch net order tr).1
      = (match order.find? (fun s => (outcome s).2) with
         | some s => .ok ((outcome s).1, true)
         | none => .ok (none, false)) ∧
    (rangeFetch net order tr).2
      = (order.takeWhile (fun s => !(outcome s).2) ++
          (order.find? (fun s => (outcome s).2)).toList).foldl
          (fun t x => (Fetch net x t).2) tr ∧
    ((∃ ip, (rangeFetch net order tr).1 = .ok (ip, true)) ↔
      ∃ s ∈ cands, (outcome s).2 = true) ∧
    (∀ order' tr', order'.Perm cands →
      ((∃ ip, (rangeFetch net order' tr').1 = .ok (ip, true)) ↔
       (∃ ip, (rangeFetch net order tr).1 = .ok (ip, true)))) := by
  have hfix' : ∀ (o : List Source), o.Perm cands →
      ∀ s ∈ o, ∀ t, (Fetch net s t).1 = .ok (outcome s) :=
    fun o ho s hs => hfix s (ho.subset hs)
  have hiff : ∀ (o : List Source) (t : List Call), o.Perm cands →
      ((∃ ip, (rangeFetch net o t).1 = .ok (ip, true)) ↔
        ∃ s ∈ cands, (outcome s).2 = true) := by
    intro o t ho
    rw [rangeFetch_found_iff net outcome o (hfix' o ho) t]
    constructor
    · rintro ⟨s, hs, h⟩
      exact ⟨s, ho.subset hs, h⟩
    · rintro ⟨s, hs, h⟩
      exact ⟨s, ho.symm.subset hs, h⟩
  obtain ⟨h1, h2⟩ := rangeFetch_closed_form net outcome order (hfix' order hperm) tr
  refine ⟨h1, h2, hiff order tr hperm, ?_⟩
  intro order' tr' hperm'
  rw [hiff order' tr' hperm', hiff order tr hperm]

theorem rangeFetch_first_success_witness :
    catalogSources.reverse.Perm catalogSources ∧
    (∀ s ∈ catalogSources, ∀ t, (Fetch httpsAnswersNet s t).1 = .ok (httpsAnswersOutcome s)) ∧
    catalogSources.reverse.find? (fun s => (httpsAnswersOutcome s).2)
      = some { ID := IFCONFIGME, Address := "ifconfig.me/ip", Protocols := HTTP ||| HTTPS,
               Replies := IPv4 } ∧
    (rangeFetch httpsAnswersNet catalogSources.reverse []).1
      = .ok (some [0, 0, 0, 0, 0, 0, 0, 0, 0, 0, 255, 255, 203, 0, 113, 7], true) ∧
    (rangeFetch httpsAnswersNet catalogSources.reverse []).1
      = (match catalogSources.reverse.find? (fun s => (httpsAnswersOutcome s).2) with
         | some s => .ok ((httpsAnswersOutcome s).1, true)
         | none => .ok (none, false)) ∧
    (Get 64 httpsAnswersNet List.reverse none []).map Prod.fst
      = some (.ok (some [0, 0, 0, 0, 0, 0, 0, 0, 0, 0, 255, 255, 203, 0, 113, 7], true)) :=
  have hfix : ∀ s ∈ catalogSources, ∀ t,
      (Fetch httpsAnswersNet s t).1 = .ok (httpsAnswersOutcome s) := by
    intro s hs t
    rw [Fetch_fst_blind httpsAnswersNet (tableNet_traceBlind _ _ _) s t []]
    simp only [catalogSources, sourcesList, List.map_cons, List.map_nil, List.mem_cons,
      List.mem_singleton, List.not_mem_nil, or_false] at hs
    rcases hs with h | h | h | h | h <;> subst h <;> rfl
  ⟨List.reverse_perm _, hfix, by rfl, by rfl,
    (rangeFetch_first_success httpsAnswersNet httpsAnswersOutcome catalogSources
      catalogSources.reverse [] (List.reverse_perm _) hfix).1,
    by rfl⟩

/-! ## The provider-name loop: claims -/

theorem SourceID_String_small (fuel : Nat) (hfuel : 7 ≤ fuel) (p : Nat) (hp : p < 64) :
    SourceID.String fuel p
      = some (String.intercalate "|" (bitmaskItems sourceIDNames p)) := by
  have hsize : Nat.size p ≤ 6 := Nat.size_le.2 (by omega)
  have hlt : p < 2 ^ 63 := by omega
  unfold SourceID.String getStringFromBitmaskMap
  rw [bitmaskLoop_eq sourceIDNames p hlt fuel (0, "") (Nat.zero_le _)]
  simp only [Nat.sub_zero]
  rw [if_pos (by omega),
    bitmaskBody_iterate_snd sourceIDNames (by decide) p (Nat.size p) (by omega)]
  unfold bitmaskItems
  rw [bitmaskItemsBelow_of_size sourceIDNames p 64 (by omega)]

theorem providerLoop_closed_form (rest : Char → Char) (fuel n : Nat) (id : String)
    (sf : Option SourceFilter) (hfuel : 7 ≤ fuel) (hn : 6 ≤ n) :
    providerLoop rest fuel id n 1 sf []
      = some (match sourceIDNames.find?
                (fun e => decide (stringsToUpper rest id = stringsToUpper rest e.2)) with
          | some e =>
            (some { (match sf with
                     | none => NewSourceFilter
                     | some f => f) with ID := e.1 },
             ([1, 2, 4, 8, 16] : List SourceID).filter (fun s => s ≤ e.1))
          | none => (sf, [1, 2, 4, 8, 16])) := by
  obtain ⟨k, rfl⟩ : ∃ k, n = k + 6 := ⟨n - 6, by omega⟩
  have s1 : SourceID.String fuel 1 = some "ICANHAZIP" := by
    rw [SourceID_String_small fuel hfuel 1 (by decide)]; decide
  have s2 : SourceID.String fuel 2 = some "IFCONFIGME" := by
    rw [SourceID_String_small fuel hfuel 2 (by decide)]; decide
  have s4 : SourceID.String fuel 4 = some "IPIFY" := by
    rw [SourceID_String_small fuel hfuel 4 (by decide)]; decide
  have s8 : SourceID.String fuel 8 = some "OPENDNS" := by
    rw [SourceID_String_small fuel hfuel 8 (by decide)]; decide
  have s16 : SourceID.String fuel 16 = some "GOOGLEDNSTXT" := by
    rw [SourceID_String_small fuel hfuel 16 (by decide)]; decide
  have s32 : SourceID.String fuel 32 = some "32" := by
    rw [SourceID_String_small fuel hfuel 32 (by decide)]; decide
  have i1 : "ICANHAZIP" ≠ Itoa 1 := by decide
  have i2 : "IFCONFIGME" ≠ Itoa 2 := by decide
  have i4 : "IPIFY" ≠ Itoa 4 := by decide
  have i8 : "OPENDNS" ≠ Itoa 8 := by decide
  have i16 : "GOOGLEDNSTXT" ≠ Itoa 16 := by decide
  have i32 : "32" = Itoa 32 := by decide
  have d1 : shlInt 1 = 2 := by decide
  have d2 : shlInt 2 = 4 := by decide
  have d4 : shlInt 4 = 8 := by decide
  have d8 : shlInt 8 = 16 := by decide
  have d16 : shlInt 16 = 32 := by decide
  by_cases c1 : stringsToUpper rest id = stringsToUpper rest "ICANHAZIP"
  · simp [providerLoop, s1, i1, eq_true c1, sourceIDNames, List.find?, ICANHAZIP]
  by_cases c2 : stringsToUpper rest id = stringsToUpper rest "IFCONFIGME"
  · simp [providerLoop, s1, s2, i1, i2, eq_false c1, eq_true c2, d1, sourceIDNames,
      List.find?, ICANHAZIP, IFCONFIGME]
  by_cases c4 : stringsToUpper rest id = stringsToUpper rest "IPIFY"
  · simp [providerLoop, s1, s2, s4, i1, i2, i4, eq_false c1, eq_false c2, eq_true c4, d1, d2,
      sourceIDNames, List.find?, ICANHAZIP, IFCONFIGME, IPIFY]
  by_cases c8 : stringsToUpper rest id = stringsToUpper rest "OPENDNS"
  · simp [providerLoop, s1, s2, s4, s8, i1, i2, i4, i8, eq_false c1, eq_false c2, eq_false c4,
      eq_true c8, d1, d2, d4, sourceIDNames, List.find?, ICANHAZIP, IFCONFIGME, IPIFY,
      OPENDNS]
  by_cases c16 : stringsToUpper rest id = stringsToUpper rest "GOOGLEDNSTXT"
  · simp [providerLoop, s1, s2, s4, s8, s16, i1, i2, i4, i8, i16, eq_false c1, eq_false c2,
      eq_false c4, eq_false c8, eq_true c16, d1, d2, d4, d8, sourceIDNames, List.find?,
      ICANHAZIP, IFCONFIGME, IPIFY, OPENDNS, GOOGLEDNSTXT]
  · simp [providerLoop, s1, s2, s4, s8, s16, s32, i1, i2, i4, i8, i16, i32, eq_false c1,
      eq_false c2, eq_false c4, eq_false c8, eq_false c16, d1, d2, d4, d8, d16, sourceIDNames,
      List.find?, ICANHAZIP, IFCONFIGME, IPIFY, OPENDNS, GOOGLEDNSTXT]

theorem flagsFilter_ID (ipv4 ipv6 : Bool) (f : SourceFilter)
    (h : flagsFilter ipv4 ipv6 = some f) : f.ID = 0 ∧ f.Proto = 0 := by
  cases ipv4 <;> cases ipv6 <;> simp [flagsFilter, NewEmpty, NewSourceFilter] at h <;>
    subst h <;> exact ⟨rfl, rfl⟩

theorem char_eq_iff_toNat (c d : Char) : c = d ↔ c.toNat = d.toNat := by
  constructor
  · intro h; rw [h]
  · intro h
    rw [← Char.ofNat_toNat c, h, Char.ofNat_toNat]

theorem toNat_ofNat_small (k : Nat) (hk : k < 256) : (Char.ofNat k).toNat = k := by
  have hv : k.isValidChar := Or.inl (by omega)
  simp only [Char.ofNat, hv, dif_pos, Char.ofNatAux, Char.toNat]
  rfl

theorem toUpperRune_toNat (rest : Char → Char) (c : Char) (hc : c.toNat < 128) :
    (toUpperRune rest c).toNat
      = if 97 ≤ c.toNat ∧ c.toNat ≤ 122 then c.toNat - 32 else c.toNat := by
  unfold toUpperRune
  by_cases h : 97 ≤ c.toNat ∧ c.toNat ≤ 122
  · rw [if_pos h, if_pos h]
    exact toNat_ofNat_small _ (by omega)
  · rw [if_neg h, if_neg h, if_pos hc]

theorem foldRune_toNat (c : Char) (hc : c.toNat < 128) :
    (foldRune c).toNat = if 65 ≤ c.toNat ∧ c.toNat ≤ 90 then c.toNat + 32 else c.toNat := by
  unfold foldRune
  by_cases h : 65 ≤ c.toNat ∧ c.toNat ≤ 90
  · rw [if_pos h, if_pos h]
    exact toNat_ofNat_small _ (by omega)
  · rw [if_neg h, if_neg h]

theorem toUpperRune_eq_iff (rest : Char → Char) (c d : Char) (hc : c.toNat < 128)
    (hd : d.toNat < 128) :
    toUpperRune rest c = toUpperRune rest d ↔ foldRune c = foldRune d := by
  rw [char_eq_iff_toNat, char_eq_iff_toNat (foldRune c), toUpperRune_toNat rest c hc,
    toUpperRune_toNat rest d hd, foldRune_toNat c hc, foldRune_toNat d hd]
  split_ifs <;> omega

theorem map_toUpperRune_eq_iff (rest : Char → Char) (a b : List Char)
    (ha : ∀ c ∈ a, c.toNat < 128) (hb : ∀ c ∈ b, c.toNat < 128) :
    a.map (toUpperRune rest) = b.map (toUpperRune rest) ↔ a.map foldRune = b.map foldRune := by
  induction a generalizing b with
  | nil => cases b <;> simp
  | cons c cs ih =>
    cases b with
    | nil => simp
    | cons d ds =>
      simp only [List.map_cons, List.cons.injEq]
      rw [toUpperRune_eq_iff rest c d (ha c (List.mem_cons_self _ _))
          (hb d (List.mem_cons_self _ _)),
        ih ds (fun x hx => ha x (List.mem_cons_of_mem _ hx))
          (fun x hx => hb x (List.mem_cons_of_mem _ hx))]

theorem stringsToUpper_eq_iff (rest : Char → Char) (a b : String) (ha : IsASCII a)
    (hb : IsASCII b) :
    stringsToUpper rest a = stringsToUpper rest b ↔ EqualIgnoringCase a b := by
  unfold stringsToUpper EqualIgnoringCase
  exact ⟨fun h => (map_toUpperRune_eq_iff rest a.data b.data ha hb).1 (congrArg String.data h),
    fun h => congrArg String.mk ((map_toUpperRune_eq_iff rest a.data b.data ha hb).2 h)⟩

theorem stringsToUpper_names (rest : Char → Char) :
    ∀ e ∈ sourceIDNames, stringsToUpper rest e.2 = e.2 := by
  intro e he
  simp only [sourceIDNames, List.mem_cons, List.mem_singleton, List.not_mem_nil,
    or_false] at he
  rcases he with h | h | h | h | h <;> subst h <;> rfl

/-- Counterexample to C18 as stated.  With the argument `icanhazip` the loop visits the
value 1 only: the name matches, the filter is created and the loop breaks, so the values
2 to 16 are not visited and the condition is never tested at 32.  With the argument spelled
with a dotless i (U+0131) in place of the first letter of `ipify`, the filter's `ID` is set
to IPIFY, because `strings.ToUpper` turns that letter into `I`, although the argument does
not equal the name ignoring case. -/
theorem provider_loop_breaks_and_dotless_i_matches :
    mainFilter (fun c => c) 64 10 false false "icanhazip"
      = some (some { ID := ICANHAZIP }, [1]) ∧
    mainFilter (fun c => c) 64 10 false false "ıpify"
      = some (some { ID := IPIFY }, [1, 2, 4]) ∧
    ¬ EqualIgnoringCase "ıpify" "IPIFY" ∧
    ¬ ((∃ f seen, mainFilter (fun c => c) 64 10 false false "ıpify"
          = some (some f, seen) ∧ f.ID = IPIFY) →
        EqualIgnoringCase "ıpify" "IPIFY") := by
  refine ⟨by decide, by decide, by decide, ?_⟩
  intro h
  exact absurd (h ⟨{ ID := IPIFY }, [1, 2, 4], by decide, rfl⟩) (by decide)

/-- C18, amended.  With enough fuel, the header of the provider-name loop enumerates the
values 1, 2, 4, 8, 16, whose `String()` is the provider name and not the decimal numeral,
and its condition fails at 32, whose `String()` is `"32"`.  The loop visits these values in
order up to and including the first whose name is `strings.ToUpper` of the `-i` argument,
creates the filter if there is none, sets its `ID` to that value and breaks; when no name
matches it visits all five and leaves `pip.SourceFilter` as the flags `-4` and `-6` left
it: without an `ID`, and nil when neither flag was given.  So the `ID` is set to a
provider's bit exactly when `strings.ToUpper` of the argument is that provider's name; for
an argument of ASCII characters that is exactly when the argument equals the name ignoring
case; the empty argument matches no name. -/
theorem mainFilter_provider_loop (rest : Char → Char) (fuel n : Nat)
    (ipv4 ipv6 : Bool) (id : String) (hfuel : 7 ≤ fuel) (hn : 6 ≤ n) :
    (∀ e ∈ sourceIDNames, SourceID.String fuel e.1 = some e.2 ∧ e.2 ≠ Itoa e.1) ∧
    sourceIDNames.map Prod.fst = [1, 2, 4, 8, 16] ∧
    ([1, 2, 4, 8, 16] : List SourceID).map shlInt = [2, 4, 8, 16, 32] ∧
    SourceID.String fuel 32 = some (Itoa 32) ∧ Itoa 32 = "32" ∧
    (∀ e ∈ sourceIDNames, stringsToUpper rest e.2 = e.2) ∧
    mainFilter rest fuel n ipv4 ipv6 id
      = some (match sourceIDNames.find?
                (fun e => decide (stringsToUpper rest id = stringsToUpper rest e.2)) with
          | some e =>
            (some { (match flagsFilter ipv4 ipv6 with
                     | none => NewSourceFilter
                     | some f => f) with ID := e.1 },
             ([1, 2, 4, 8, 16] : List SourceID).filter (fun s => s ≤ e.1))
          | none => (flagsFilter ipv4 ipv6, [1, 2, 4, 8, 16])) ∧
    ((∀ e ∈ sourceIDNames, stringsToUpper rest id ≠ e.2) →
      mainFilter rest fuel n ipv4 ipv6 id
        = some (flagsFilter ipv4 ipv6, [1, 2, 4, 8, 16])) ∧
    (flagsFilter false false = none ∧
      ∀ f, flagsFilter ipv4 ipv6 = some f → f.ID = 0) ∧
    (∀ e ∈ sourceIDNames,
      ((∃ f seen, mainFilter rest fuel n ipv4 ipv6 id = some (some f, seen) ∧
          f.ID = e.1) ↔
        stringsToUpper rest id = e.2)) ∧
    (IsASCII id → ∀ e ∈ sourceIDNames,
      ((∃ f seen, mainFilter rest fuel n ipv4 ipv6 id = some (some f, seen) ∧
          f.ID = e.1) ↔
        EqualIgnoringCase id e.2)) ∧
    mainFilter rest fuel n ipv4 ipv6 ""
      = some (flagsFilter ipv4 ipv6, [1, 2, 4, 8, 16]) := by
  have hnames := stringsToUpper_names rest
  have hclosed : ∀ arg, mainFilter rest fuel n ipv4 ipv6 arg
      = some (match sourceIDNames.find?
                (fun e => decide (stringsToUpper rest arg = stringsToUpper rest e.2)) with
          | some e =>
            (some { (match flagsFilter ipv4 ipv6 with
                     | none => NewSourceFilter
                     | some f => f) with ID := e.1 },
             ([1, 2, 4, 8, 16] : List SourceID).filter (fun s => s ≤ e.1))
          | none => (flagsFilter ipv4 ipv6, [1, 2, 4, 8, 16])) :=
    fun arg => providerLoop_closed_form rest fuel n arg
      (flagsFilter ipv4 ipv6) hfuel hn
  have hstr : ∀ e ∈ sourceIDNames, SourceID.String fuel e.1 = some e.2 ∧ e.2 ≠ Itoa e.1 := by
    intro e he
    simp only [sourceIDNames, List.mem_cons, List.mem_singleton, List.not_mem_nil,
      or_false] at he
    rcases he with h | h | h | h | h <;> subst h <;> refine ⟨?_, by decide⟩
    · rw [SourceID_String_small fuel hfuel _ (by decide)]; decide
    · rw [SourceID_String_small fuel hfuel _ (by decide)]; decide
    · rw [SourceID_String_small fuel hfuel _ (by decide)]; decide
    · rw [SourceID_String_small fuel hfuel _ (by decide)]; decide
    · rw [SourceID_String_small fuel hfuel _ (by decide)]; decide
  have h32 : SourceID.String fuel 32 = some (Itoa 32) := by
    rw [SourceID_String_small fuel hfuel 32 (by decide)]; decide
  have hnone : ∀ arg, (∀ e ∈ sourceIDNames, stringsToUpper rest arg ≠ e.2) →
      mainFilter rest fuel n ipv4 ipv6 arg
        = some (flagsFilter ipv4 ipv6, [1, 2, 4, 8, 16]) := by
    intro arg h
    have hf : sourceIDNames.find?
        (fun e => decide (stringsToUpper rest arg = stringsToUpper rest e.2)) = none := by
      rw [List.find?_eq_none]
      intro e he
      rw [hnames e he]
      simpa using h e he
    rw [hclosed arg, hf]
  have hkeys : ∀ e ∈ sourceIDNames, ∀ e' ∈ sourceIDNames, e.1 = e'.1 → e = e' := by decide
  have hvals : ∀ e ∈ sourceIDNames, ∀ e' ∈ sourceIDNames, e.2 = e'.2 → e = e' := by decide
  have hpos : ∀ e ∈ sourceIDNames, e.1 ≠ 0 := by decide
  have hascii : ∀ e ∈ sourceIDNames, IsASCII e.2 := by decide
  have hiff : ∀ e ∈ sourceIDNames,
      ((∃ f seen, mainFilter rest fuel n ipv4 ipv6 id = some (some f, seen) ∧
          f.ID = e.1) ↔
        stringsToUpper rest id = e.2) := by
    intro e he
    rw [hclosed id]
    cases hfind : sourceIDNames.find?
        (fun e => decide (stringsToUpper rest id = stringsToUpper rest e.2)) with
    | none =>
      have hno := List.find?_eq_none.1 hfind
      constructor
      · rintro ⟨f, seen, h, hID⟩
        simp only [Option.some.injEq, Prod.mk.injEq] at h
        have := (flagsFilter_ID ipv4 ipv6 f h.1).1
        exact absurd (hID.symm.trans this) (hpos e he)
      · intro h
        have := hno e he
        rw [hnames e he] at this
        exact absurd h (by simpa using this)
    | some e' =>
      have hmem := List.mem_of_find?_eq_some hfind
      have hmatch : stringsToUpper rest id = e'.2 := by
        have := List.find?_some hfind
        rw [hnames e' hmem] at this
        simpa using this
      constructor
      · rintro ⟨f, seen, h, hID⟩
        simp only [Option.some.injEq, Prod.mk.injEq] at h
        have hf := h.1
        subst hf
        simp only at hID
        have := hkeys e' hmem e he hID
        rw [← this]
        exact hmatch
      · intro h
        have hinj := hvals e' hmem e he (hmatch.symm.trans h)
        subst hinj
        exact ⟨_, _, rfl, rfl⟩
  refine ⟨hstr, by decide, by decide, h32, by decide, hnames, hclosed id, hnone id,
    ⟨rfl, fun f hf => (flagsFilter_ID ipv4 ipv6 f hf).1⟩, hiff, ?_, ?_⟩
  · intro hid e he
    rw [hiff e he, ← stringsToUpper_eq_iff rest id e.2 hid (hascii e he), hnames e he]
  · apply hnone
    intro e he h
    have hne : ∀ e ∈ sourceIDNames, e.2 ≠ "" := by decide
    exact hne e he h.symm

theorem mainFilter_provider_loop_witness :
    (7 ≤ 64 ∧ 6 ≤ 10) ∧ IsASCII "OpenDNS" ∧
    mainFilter (fun c => c) 64 10 false false "OpenDNS"
      = some (some { ID := OPENDNS }, [1, 2, 4, 8]) ∧
    mainFilter (fun c => c) 64 10 false true "icanhazip"
      = some (some { ID := ICANHAZIP, Replies := IPv6 }, [1]) ∧
    mainFilter (fun c => c) 64 10 false false ""
      = some (none, [1, 2, 4, 8, 16]) ∧
    mainFilter (fun c => c) 64 10 true false "whatismyip"
      = some (some { Replies := IPv4 }, [1, 2, 4, 8, 16]) ∧
    EqualIgnoringCase "OpenDNS" "OPENDNS" ∧
    ((∃ f seen, mainFilter (fun c => c) 64 10 false false "OpenDNS"
          = some (some f, seen) ∧ f.ID = OPENDNS) ↔
      EqualIgnoringCase "OpenDNS" "OPENDNS") :=
  ⟨⟨by decide, by decide⟩, by decide, by decide, by decide, by decide, by decide, by decide,
    (mainFilter_provider_loop (fun c => c) 64 10 false false "OpenDNS" (by decide)
      (by decide)).2.2.2.2.2.2.2.2.2.2.1 (by decide) (OPENDNS, "OPENDNS") (by decide)⟩

end Pubip
